import Mathlib

/-!
Verification development for the uniform connection pool driver
(`src/uniform/mod.rs` of tk-pool).

The driver (`Lazy`) is embedded as a deterministic state machine over an
explicit pool state `St`.  Asynchronous collaborators are modelled by
oracle scripts consumed functionally:

* `script : List FEv` prescribes the outcomes yielded by draining the
  future set (`FuturesUnordered::poll`), including progress steps of
  connection helper tasks;
* `rng : List Nat` prescribes the values drawn by `thread_rng().gen_range`;
* `addrScript : List APoll` prescribes the results of polling the
  address stream.

Side effects on the error log and the metrics collector are recorded in
an append-only `trace`.  The submodules `uniform/chan.rs`,
`uniform/aligner.rs`, `uniform/failures.rs` and `uniform/sink.rs` are not
part of the sources; the corresponding definitions are modelled from the
specification and are marked as such in their doc comments.
-/

namespace TkPool

/-- A socket address, abstracted to a natural number. -/
abbrev SockAddr := Nat

/-- Modelled from the spec: an address snapshot is an ordered set of
endpoints with a designated primary-priority subset (the `.at(0)` view).
`prim` is the primary view used by `compare_addresses`; `others` stands
for the remaining priorities, so that two snapshots can differ as values
while having equal primary views. -/
structure Address where
  prim : List SockAddr
  others : List SockAddr
deriving DecidableEq

/-- Trace events: metric counters, error-log callbacks and collaborator
calls performed by the driver, in program order. -/
inductive Ev (I : Type) where
  | connectionAttempt
  | connectionMade
  | connectionErrorMetric
  | logConnError (a : SockAddr) (err : Nat)
  | blacklistAdd
  | blacklisted (a : SockAddr) (deadline : Nat)
  | alignerPut (a : SockAddr)
  | disconnectMetric
  | logSinkErr (a : SockAddr) (err : Nat)
  | connectionAbort
  | blacklistRemove
  | logShutdown
  | alignerUpdate (added : List SockAddr) (retired : List SockAddr)
  | sinkAccepted (cid : Nat) (item : I)
deriving DecidableEq

/-- One outcome of polling the future set, mirroring `FutureOk` and
`FutureErr` in `mod.rs`, plus `helperStep`: a connection helper task that
was polled inside the same drain, consumed its pending item (its sink
accepted it) and re-enqueued its controller, as the spec's re-queueing
protocol prescribes. -/
inductive FEv (I : Type) where
  | notReady
  | connected (cid : Nat)
  | aborted (a : SockAddr)
  | closedDone (a : SockAddr)
  | cantConnect (a : SockAddr) (err : Nat)
  | disconnected (a : SockAddr) (err : Nat)
  | helperStep (cid : Nat)
deriving DecidableEq

/-- One outcome of polling the address stream. -/
inductive APoll where
  | ready (a : Address)
  | eos
  | notReady
deriving DecidableEq

/-- Modelled from the spec: the shared cell of a `Controller`/`Helper`
pair from the missing `uniform/chan.rs`:
`{ addr, closed, queued, pending_item }`. -/
structure Cell (I : Type) where
  addr : SockAddr
  closed : Bool
  queued : Bool
  pending : Option I
deriving DecidableEq

/-- Modelled from the spec: the `Aligner` of the missing
`uniform/aligner.rs`: a mapping from each known address to its
outstanding connection count, in a deterministic order. -/
structure Aligner where
  entries : List (SockAddr × Nat)
deriving DecidableEq

/-- Modelled from the spec: `Aligner::put` decrements the outstanding
count for `a`; it is a no-op if `a` is no longer known. -/
def Aligner.put (al : Aligner) (a : SockAddr) : Aligner :=
  ⟨al.entries.map (fun p => if p.1 = a then (p.1, p.2 - 1) else p)⟩

/-- Modelled from the spec: `Aligner::update(added, retired)` drops the
retired addresses and adds the added ones with count zero (skipping
addresses already known, since the state is a mapping). -/
def Aligner.update (al : Aligner) (added retired : List SockAddr) : Aligner :=
  let kept := al.entries.filter (fun p => !(retired.contains p.1))
  ⟨added.foldl
    (fun es a => if (es.map Prod.fst).contains a then es else es ++ [(a, 0)])
    kept⟩

/-- First entry with the minimal count; ties are broken by the stable
list order, realizing the round-robin-friendly tie break of the spec. -/
def pickMin : List (SockAddr × Nat) → Option (SockAddr × Nat)
  | [] => none
  | p :: rest => some (rest.foldl (fun b q => if q.2 < b.2 then q else b) p)

/-- Modelled from the spec: `Aligner::get(limit, is_failing)` chooses,
among known addresses with count strictly below `limit` that are not
failing, one with the smallest count; on success its count is
incremented. -/
def Aligner.get (al : Aligner) (limit : Nat) (failing : SockAddr → Bool) :
    Option SockAddr × Aligner :=
  match pickMin (al.entries.filter (fun p => p.2 < limit && !failing p.1)) with
  | none => (none, al)
  | some p =>
    (some p.1,
     ⟨al.entries.map (fun q => if q.1 = p.1 then (q.1, q.2 + 1) else q)⟩)

/-- Remaining connection capacity of the aligner: the sum over all known
addresses of how many more connections may be opened to each. -/
def Aligner.capacity (al : Aligner) (limit : Nat) : Nat :=
  (al.entries.map (fun p => limit - p.2)).sum

/-- Modelled from the spec: blacklist insertion from the missing
`uniform/failures.rs`; re-blacklisting an already-present address
refreshes its deadline, keeping entries unique per address. -/
def blistInsert (b : List (SockAddr × Nat)) (a : SockAddr) (deadline : Nat) :
    List (SockAddr × Nat) :=
  b.filter (fun p => !(p.1 = a : Bool)) ++ [(a, deadline)]

/-- Modelled from the spec: `Blacklist::is_failing` is a membership
lookup. -/
def isFailing (b : List (SockAddr × Nat)) (a : SockAddr) : Bool :=
  b.any (fun p => p.1 = a)

/-- Remove the first expired entry (deadline at or before `now`) from a
blacklist, returning it and the remaining list. -/
def popExpired (now : Nat) : List (SockAddr × Nat) →
    Option ((SockAddr × Nat) × List (SockAddr × Nat))
  | [] => none
  | p :: rest =>
    if p.2 ≤ now then some (p, rest)
    else match popExpired now rest with
      | some (q, rest2) => some (q, p :: rest2)
      | none => none

/-- Registry model of `Connections` from `mod.rs`, for the queued-flag
invariant.  Controller cells are identified by naturals; `cstore` gives
each controller's shared flags, `queue` is the ready queue and `call`
the `all` set.  The `assert!` calls of the source are modelled by
returning `none` (a panic) when their condition fails. -/
structure Connections where
  cstore : Nat → Cell Unit
  queue : List Nat
  call : List Nat

/-- `Connections::add` from `mod.rs`: asserts that the controller is
neither closed nor queued, sets `queued` and pushes to the back of the
queue. -/
def Connections.add (c : Connections) (cid : Nat) : Option Connections :=
  if (c.cstore cid).closed then none
  else if (c.cstore cid).queued then none
  else some
    { c with
      cstore := fun x =>
        if x = cid then { c.cstore cid with queued := true } else c.cstore x,
      queue := c.queue ++ [cid] }

/-- `Connections::next` from `mod.rs`: pops the front of the queue,
asserts the popped controller is flagged queued, and clears the flag.
The outer `Option` is the panic of the assertion; the inner one is the
emptiness of the queue. -/
def Connections.next (c : Connections) : Option (Option Nat × Connections) :=
  match c.queue with
  | [] => some (none, c)
  | cid :: rest =>
    if (c.cstore cid).queued then
      some (some cid,
        { c with
          cstore := fun x =>
            if x = cid then { c.cstore cid with queued := false }
            else c.cstore x,
          queue := rest })
    else none

/-- `Connections::has_ready` from `mod.rs`. -/
def Connections.has_ready (c : Connections) : Bool :=
  c.queue.length > 0

/-- The queued-flag invariant of the registry: a controller's `queued`
flag is set exactly when it is in the ready queue, and the queue has no
duplicates. -/
def RegistryInv (c : Connections) : Prop :=
  (∀ x, (c.cstore x).queued = true ↔ x ∈ c.queue) ∧ c.queue.Nodup

/-- Milliseconds computed by `LazyUniform::construct` from a
`reconnect_timeout` duration of `secs` seconds plus `nanos` nanoseconds:
`as_secs() * 1000 + subsec_nanos() / 1_000_000`. -/
def reconnMs (secs nanos : Nat) : Nat :=
  secs * 1000 + nanos / 1000000

/-- The pair `(reconn_ms / 2, reconn_ms * 3 / 2)` stored by
`LazyUniform::construct` as `reconnect_ms`. -/
def reconnRange (secs nanos : Nat) : Nat × Nat :=
  (reconnMs secs nanos / 2, reconnMs secs nanos * 3 / 2)

/-- Modelled from the spec of the external `rand` crate:
`gen_range(lo, hi)` yields a value in the half-open interval
`[lo, hi)`; the oracle value `r` selects which. -/
def genRange (lo hi r : Nat) : Nat :=
  lo + r % (hi - lo)

/-- The state of the `Lazy` pool driver (struct `Lazy` of the missing
`uniform/pool.rs`, whose fields are fixed by `LazyUniform::construct` in
`mod.rs`), together with the oracle scripts of its asynchronous
collaborators and the trace of its external effects.  The future set is
represented by its size `futcount` (the only observation `mod.rs` makes
of it besides draining) plus the outcome script. -/
structure St (I : Type) where
  connLimit : Nat
  reconnectMs : Nat × Nat
  futcount : Nat
  script : List (FEv I)
  rng : List Nat
  addrScript : List APoll
  store : Nat → Cell I
  queue : List Nat
  allSet : List Nat
  blist : List (SockAddr × Nat)
  now : Nat
  aligner : Aligner
  closing : Bool
  curAddress : Address
  nextId : Nat
  trace : List (Ev I)

/-- Point update of a controller store. -/
def updStore {I : Type} (store : Nat → Cell I) (cid : Nat) (c : Cell I) :
    Nat → Cell I :=
  fun x => if x = cid then c else store x

/-- Effect of one non-`notReady` outcome of `futures.poll()` inside
`Lazy::poll_futures`, with the script head already consumed:
the `match` arms of `poll_futures` in `mod.rs` lines 221-250, and the
helper re-queueing step of the spec's re-queueing protocol. -/
def drainStep {I : Type} (e : FEv I) (st : St I) : St I :=
  match e with
  | .notReady => st
  | .connected _ =>
    { st with trace := st.trace ++ [Ev.connectionMade] }
  | .aborted _ =>
    { st with
      futcount := st.futcount - 1
      trace := st.trace ++ [Ev.connectionAbort] }
  | .closedDone _ =>
    { st with
      futcount := st.futcount - 1
      trace := st.trace ++ [Ev.disconnectMetric] }
  | .cantConnect a err =>
    let dur := genRange st.reconnectMs.1 st.reconnectMs.2 (st.rng.headD 0)
    { st with
      futcount := st.futcount - 1
      rng := st.rng.tail
      trace := st.trace ++
        [Ev.connectionErrorMetric, Ev.logConnError a err, Ev.blacklistAdd,
         Ev.blacklisted a (st.now + dur), Ev.alignerPut a]
      blist := blistInsert st.blist a (st.now + dur)
      aligner := st.aligner.put a }
  | .disconnected a err =>
    { st with
      futcount := st.futcount - 1
      trace := st.trace ++
        [Ev.disconnectMetric, Ev.logSinkErr a err, Ev.alignerPut a]
      aligner := st.aligner.put a }
  | .helperStep cid =>
    let c := st.store cid
    if c.closed then st
    else match c.pending with
      | none => st
      | some item =>
        if c.queued then st
        else
          { st with
            store := updStore st.store cid
              { c with pending := none, queued := true }
            queue := st.queue ++ [cid]
            trace := st.trace ++ [Ev.sinkAccepted cid item] }

/-- The drain loop of `Lazy::poll_futures`: consume script entries until
the set is empty (`Ready(None)`), the script yields `NotReady`, or the
script is exhausted (treated as `NotReady`). -/
def pollGo {I : Type} : Nat → St I → St I
  | 0, st => st
  | n + 1, st =>
    match st.script with
    | [] => st
    | e :: rest =>
      if st.futcount = 0 then st
      else match e with
        | .notReady => { st with script := rest }
        | _ => pollGo n (drainStep e { st with script := rest })

/-- `Lazy::poll_futures` from `mod.rs`. -/
def pollFutures {I : Type} (st : St I) : St I :=
  pollGo st.script.length st

/-- One call of `Blacklist::poll`: modelled from the spec, it yields an
expired entry if one exists (removing it), else reports pending. -/
def blistPollStep {I : Type} (st : St I) : Bool × St I :=
  match popExpired st.now st.blist with
  | some (_, b2) => (true, { st with blist := b2 })
  | none => (false, st)

/-- The drain of blacklist expirations (`while let Async::Ready(_) =
self.blist.poll() { self.metrics.blacklist_remove(); }`). -/
def blistDrain {I : Type} : Nat → St I → St I
  | 0, st => st
  | n + 1, st =>
    match blistPollStep st with
    | (true, st2) =>
      blistDrain n { st2 with trace := st2.trace ++ [Ev.blacklistRemove] }
    | (false, st2) => st2

/-- Drain all currently expired blacklist entries. -/
def blistDrainAll {I : Type} (st : St I) : St I :=
  blistDrain st.blist.length st

/-- `Lazy::start_closing` from `mod.rs`: once, set `closing` and call
`close()` on every controller in the `all` set. -/
def startClosing {I : Type} (st : St I) : St I :=
  if st.closing then st
  else
    { st with
      closing := true
      store := fun c =>
        if st.allSet.contains c then { st.store c with closed := true }
        else st.store c }

/-- The loop body of `Lazy::new_addr`: pull from the address stream
keeping only the latest snapshot, until `NotReady` (or an exhausted
script) or end-of-stream; the second component reports end-of-stream, in
which case the accumulated snapshot is discarded. -/
def pollAddrGo : List APoll → Option Address →
    Option Address × Bool × List APoll
  | [], acc => (acc, false, [])
  | APoll.notReady :: rest, acc => (acc, false, rest)
  | APoll.eos :: rest, _ => (none, true, rest)
  | APoll.ready a :: rest, _ => pollAddrGo rest (some a)

/-- `Lazy::new_addr` from `mod.rs`: on end-of-stream it logs the
shutdown reason, starts closing and returns `None`. -/
def newAddr {I : Type} (st : St I) : Option Address × St I :=
  let r := pollAddrGo st.addrScript none
  let st1 : St I := { st with addrScript := r.2.2 }
  if r.2.1 then
    (none, startClosing { st1 with trace := st1.trace ++ [Ev.logShutdown] })
  else
    (r.1, st1)

/-- The `compare_addresses` call on the primary-priority views, modelled
from the spec: it yields the disjoint pair `(retired, added)`. -/
def compareAddresses (old new2 : List SockAddr) :
    List SockAddr × List SockAddr :=
  (old.filter (fun a => !(new2.contains a)),
   new2.filter (fun a => !(old.contains a)))

/-- The retirement loop of `Lazy::check_for_address_updates`: call
`close()` on every controller in `all` whose address is retired. -/
def closeRetired {I : Type} (retired : List SockAddr) (st : St I) : St I :=
  { st with store := fun c =>
      if st.allSet.contains c && retired.contains (st.store c).addr then
        { st.store c with closed := true }
      else st.store c }

/-- `Lazy::check_for_address_updates` from `mod.rs`. -/
def checkForAddressUpdates {I : Type} (st : St I) : St I :=
  match newAddr st with
  | (some na, st1) =>
    if na = st1.curAddress then st1
    else
      let pr := compareAddresses st1.curAddress.prim na.prim
      let st2 := closeRetired pr.1 st1
      { st2 with
        aligner := st2.aligner.update pr.2 pr.1
        trace := st2.trace ++ [Ev.alignerUpdate pr.2 pr.1]
        curAddress := na }
  | (none, st1) => st1

/-- `Lazy::do_connect` from `mod.rs`: ask the aligner for an address that
is not blacklisted; on success record the `connection_attempt` metric,
create a fresh handle, insert its controller into the `all` set (not the
ready queue) and push a connect future. -/
def doConnect {I : Type} (st : St I) : Option SockAddr × St I :=
  match st.aligner.get st.connLimit (fun a => isFailing st.blist a) with
  | (some addr, al2) =>
    (some addr,
     { st with
       aligner := al2
       trace := st.trace ++ [Ev.connectionAttempt]
       store := updStore st.store st.nextId
         { addr := addr, closed := false, queued := false, pending := none }
       allSet := st.allSet ++ [st.nextId]
       nextId := st.nextId + 1
       futcount := st.futcount + 1 })
  | (none, _) => (none, st)

/-- Results of `start_send`: `Ok(Ready)`, `Ok(NotReady(item))`,
`Err(Done)`, plus the out-of-fuel marker of the embedding (the source
loops have no such result; sufficient fuel is established separately). -/
inductive SendRes (I : Type) where
  | ready
  | notReady (v : I)
  | doneErr
  | fuelOut
deriving DecidableEq

/-- Results of `poll_complete` / `close`. -/
inductive PollRes where
  | ready
  | notReady
  | doneErr
deriving DecidableEq

/-- Deposit an item in a controller's cell: `Controller::request`,
modelled from the spec (the cell's in-flight slot is filled and the
helper is woken). -/
def requestInto {I : Type} (cid : Nat) (v : I) (st : St I) : St I :=
  { st with store :=
      updStore st.store cid { st.store cid with pending := some v } }

/-- Clear a controller's in-flight slot: the taking part of
`Controller::request_back`, modelled from the spec (the driver takes
back the deposited item if the helper has not consumed it). -/
def clearPending {I : Type} (cid : Nat) (st : St I) : St I :=
  { st with store :=
      updStore st.store cid { st.store cid with pending := none } }

/-- Pop the front of the ready queue and clear the popped controller's
`queued` flag: the effect of `Connections::next` on a successful pop. -/
def popStep {I : Type} (cid : Nat) (restq : List Nat) (st : St I) : St I :=
  { st with
    queue := restq
    store := updStore st.store cid { st.store cid with queued := false } }

mutual

/-- The inner dispatch loop of `Lazy::start_send` (`mod.rs` lines
278-298): pop controllers from the ready queue; skip closed ones; give
the item to the first live one, drain futures, and either take the item
back and continue, or return `Ready`.  When the queue runs dry, drain
futures once more and either resume or fall through to the connect
section. -/
def dispatchPhase {I : Type} : Nat → I → St I → SendRes I × St I
  | 0, _, st => (SendRes.fuelOut, st)
  | fuel + 1, v, st =>
    match st.queue with
    | cid :: restq =>
      let st1 := popStep cid restq st
      if (st.store cid).closed then dispatchPhase fuel v st1
      else
        let st2 := pollFutures (requestInto cid v st1)
        match (st2.store cid).pending with
        | some r => dispatchPhase fuel r (clearPending cid st2)
        | none => (SendRes.ready, clearPending cid st2)
    | [] =>
      let st2 := pollFutures st
      match st2.queue with
      | _ :: _ => dispatchPhase fuel v st2
      | [] => connectPhase fuel v st2

/-- The connect section of `Lazy::start_send` (`mod.rs` lines 299-319):
repeatedly `do_connect`; after each new attempt drain futures and resume
dispatch if a controller became ready, or report `NotReady` if the new
address is not blacklisted; when the aligner is exhausted, drain
blacklist expirations and retry, or report `NotReady`. -/
def connectPhase {I : Type} : Nat → I → St I → SendRes I × St I
  | 0, _, st => (SendRes.fuelOut, st)
  | fuel + 1, v, st =>
    match doConnect st with
    | (some addr, st1) =>
      let st2 := pollFutures st1
      match st2.queue with
      | _ :: _ => dispatchPhase fuel v st2
      | [] =>
        if isFailing st2.blist addr then connectPhase fuel v st2
        else (SendRes.notReady v, st2)
    | (none, st1) =>
      match blistPollStep st1 with
      | (true, stb) =>
        connectPhase fuel v
          (blistDrainAll { stb with trace := stb.trace ++ [Ev.blacklistRemove] })
      | (false, st2) => (SendRes.notReady v, st2)

end

/-- `Lazy::start_send` from `mod.rs` (`Sink::start_send`). -/
def startSend {I : Type} (fuel : Nat) (v : I) (st : St I) :
    SendRes I × St I :=
  if st.closing then
    let st1 := pollFutures st
    if st1.futcount = 0 then (SendRes.doneErr, st1)
    else (SendRes.notReady v, st1)
  else
    dispatchPhase fuel v (checkForAddressUpdates st)

/-- `Lazy::poll_complete` from `mod.rs` (`Sink::poll_complete`). -/
def pollComplete {I : Type} (st : St I) : PollRes × St I :=
  if st.closing then
    let st1 := pollFutures st
    if st1.futcount = 0 then (PollRes.doneErr, st1)
    else (PollRes.notReady, st1)
  else
    (PollRes.notReady, blistDrainAll (pollFutures st))

/-- `Lazy::close` from `mod.rs` (`Sink::close`). -/
def closeOp {I : Type} (st : St I) : PollRes × St I :=
  let st1 := pollFutures (startClosing st)
  if st1.futcount = 0 then (PollRes.ready, st1)
  else (PollRes.notReady, st1)

/-- `LazyUniform` from `mod.rs`: the constructor configuration, with the
timeout as whole seconds plus subsecond nanoseconds. -/
structure LazyUniform where
  conn_limit : Nat
  reconnect_secs : Nat
  reconnect_nanos : Nat

/-- `LazyUniform::construct` from `mod.rs`: the initial driver state,
given the oracle scripts of the collaborators. -/
def LazyUniform.construct {I : Type} (lu : LazyUniform)
    (script : List (FEv I)) (rng : List Nat) (addrScript : List APoll)
    (now : Nat) : St I :=
  { connLimit := lu.conn_limit,
    reconnectMs := reconnRange lu.reconnect_secs lu.reconnect_nanos,
    futcount := 0,
    script := script,
    rng := rng,
    addrScript := addrScript,
    store := fun _ => ⟨0, false, false, none⟩,
    queue := [],
    allSet := [],
    blist := [],
    now := now,
    aligner := ⟨[]⟩,
    closing := false,
    curAddress := ⟨[], []⟩,
    nextId := 0,
    trace := [] }

/-- The termination measure of the `start_send` loops: script entries
count double because one consumed entry can enqueue one controller or
free one unit of aligner capacity. -/
def mu {I : Type} (st : St I) : Nat :=
  2 * st.script.length + st.queue.length +
    st.aligner.capacity st.connLimit + st.blist.length

/-- No controller cell holds an in-flight item (the quiescent condition
between sink operations). -/
def pendingFree {I : Type} (st : St I) : Prop :=
  ∀ c, (st.store c).pending = none

/-- The aligner is a mapping: its entry list has no duplicate
addresses. -/
def alignerKeysNodup {I : Type} (st : St I) : Prop :=
  (st.aligner.entries.map Prod.fst).Nodup

/-- Clear the `queued` flag of one controller (the cell effect of a pop
from the ready queue). -/
def clearQ {I : Type} (d : Nat) (s : St I) : St I :=
  { s with store := updStore s.store d { s.store d with queued := false } }

/-- The cell effects of the dispatch loop popping and skipping a list of
closed controllers, front to back. -/
def skipClosed {I : Type} (ds : List Nat) (st : St I) : St I :=
  ds.foldl (fun s d => clearQ d s) st

/-- The dispatch step on a live controller popped with remaining queue
`q2`: deposit the item via `request`, drain the future set, then check
`request_back`: if the item came back, dispatch continues with it,
otherwise `start_send` returns `Ready`. -/
def liveStep {I : Type} (cid : Nat) (q2 : List Nat) (v : I) (fuel : Nat)
    (st : St I) : SendRes I × St I :=
  let st2 := pollFutures (requestInto cid v (popStep cid q2 st))
  match (st2.store cid).pending with
  | some r => dispatchPhase fuel r (clearPending cid st2)
  | none => (SendRes.ready, clearPending cid st2)

/-- The measure with the ready-queue length counted twice: one consumed
script entry can enqueue at most one controller. -/
def nuM {I : Type} (st : St I) : Nat :=
  2 * st.script.length + 2 * st.queue.length +
    st.aligner.capacity st.connLimit + st.blist.length

/-- The no-silent-discard outcome of a `start_send` call on item `v`:
either `Ready` with `v` accepted by some connection's sink, or
`NotReady` handing exactly `v` back to the caller. -/
def goodRes {I : Type} (v : I) (r : SendRes I × St I) : Prop :=
  (r.1 = SendRes.ready ∧ ∃ c, Ev.sinkAccepted c v ∈ r.2.trace) ∨
  r.1 = SendRes.notReady v

/-- A concrete base state over `I = Nat` used by the witnesses. -/
def wBase : St Nat :=
  (LazyUniform.mk 2 0 100000000).construct [] [] [] 0

/-- Concrete state with one future whose next outcome is a connect
failure. -/
def wCant : St Nat :=
  { wBase with
    script := [FEv.cantConnect 7 3, FEv.notReady]
    futcount := 1
    rng := [9]
    aligner := ⟨[(7, 2)]⟩
    now := 1000 }

/-- Concrete state with one future whose next outcome is a
disconnect. -/
def wDisc : St Nat :=
  { wBase with
    script := [FEv.disconnected 7 3, FEv.notReady]
    futcount := 1
    aligner := ⟨[(7, 2)]⟩
    blist := [(9, 2000)]
    now := 1000 }

/-- Concrete closing state with one outstanding future and an empty
script. -/
def wClosing : St Nat :=
  { wBase with closing := true, futcount := 1 }

/-- Concrete open state with one live queued controller whose helper
accepts the item during the drain. -/
def wLive : St Nat :=
  { wBase with
    script := [FEv.helperStep 0, FEv.notReady]
    futcount := 1
    queue := [0]
    store := fun c =>
      if c = 0 then ⟨7, false, true, none⟩ else ⟨0, false, false, none⟩
    aligner := ⟨[(7, 1)]⟩ }

/-- `wLive` with a closed controller in front of the live one. -/
def wSkip : St Nat :=
  { wLive with
    queue := [1, 0]
    store := fun c =>
      if c = 0 then ⟨7, false, true, none⟩
      else if c = 1 then ⟨8, true, true, none⟩
      else ⟨0, false, false, none⟩ }

/-- Concrete snapshots for the address-update witnesses. -/
def wAddrA : Address := ⟨[1, 2], []⟩

/-- Second concrete snapshot, retiring address 1 and adding 3. -/
def wAddrB : Address := ⟨[2, 3], []⟩

/-- Concrete state whose address stream yields a fresh snapshot and then
pends. -/
def wUpd : St Nat :=
  { wBase with
    curAddress := wAddrA
    addrScript := [APoll.ready wAddrB, APoll.notReady]
    allSet := [0, 1]
    store := fun c =>
      if c = 0 then ⟨1, false, false, none⟩ else ⟨2, false, false, none⟩
    aligner := ⟨[(1, 2), (2, 1)]⟩ }

/-- Concrete state whose address stream yields a snapshot and then ends. -/
def wEos : St Nat :=
  { wUpd with addrScript := [APoll.ready wAddrB, APoll.eos] }

/-- Concrete registry with one live unqueued controller and one queued
one. -/
def wReg : Connections :=
  { cstore := fun c =>
      if c = 0 then ⟨7, false, false, none⟩
      else if c = 1 then ⟨8, false, true, none⟩
      else ⟨0, true, false, none⟩,
    queue := [1],
    call := [0, 1] }

lemma drainStep_script {I : Type} (e : FEv I) (st : St I) :
    (drainStep e st).script = st.script := by
  cases e <;> simp only [drainStep]
  split
  · rfl
  · split
    · rfl
    · split <;> rfl

lemma pollGo_nil {I : Type} (n : Nat) (st : St I) (h : st.script = []) :
    pollGo n st = st := by
  cases n <;> simp [pollGo, h]

lemma pollGo_zero {I : Type} (n : Nat) (st : St I) (h : st.futcount = 0) :
    pollGo n st = st := by
  cases n with
  | zero => rfl
  | succ n =>
    cases hs : st.script <;> simp [pollGo, hs, h]

lemma pollGo_notReady {I : Type} (n : Nat) (st : St I)
    (rest : List (FEv I)) (h : st.script = FEv.notReady :: rest)
    (hf : st.futcount ≠ 0) :
    pollGo (n + 1) st = { st with script := rest } := by
  simp [pollGo, h, hf]

lemma pollGo_cons {I : Type} (n : Nat) (st : St I) (e : FEv I)
    (rest : List (FEv I)) (h : st.script = e :: rest)
    (hf : st.futcount ≠ 0) (hnr : e ≠ FEv.notReady) :
    pollGo (n + 1) st = pollGo n (drainStep e { st with script := rest }) := by
  cases e <;> first
    | exact absurd rfl hnr
    | simp [pollGo, h, hf]

lemma pollFutures_stuck {I : Type} (st : St I)
    (h : st.script = [] ∨ st.futcount = 0) : pollFutures st = st := by
  rcases h with h | h
  · exact pollGo_nil _ _ h
  · exact pollGo_zero _ _ h

lemma pollFutures_notReady {I : Type} (st : St I) (rest : List (FEv I))
    (h : st.script = FEv.notReady :: rest) (hf : st.futcount ≠ 0) :
    pollFutures st = { st with script := rest } := by
  unfold pollFutures
  rw [h, List.length_cons]
  exact pollGo_notReady rest.length st rest h hf

lemma pollFutures_cons {I : Type} (st : St I) (e : FEv I)
    (rest : List (FEv I)) (h : st.script = e :: rest)
    (hf : st.futcount ≠ 0) (hnr : e ≠ FEv.notReady) :
    pollFutures st = pollFutures (drainStep e { st with script := rest }) := by
  have hlen : (drainStep e { st with script := rest }).script = rest :=
    drainStep_script e _
  unfold pollFutures
  rw [hlen, h, List.length_cons]
  exact pollGo_cons rest.length st e rest h hf hnr

/-- C6: when draining the future set yields a `CantConnect(addr, err)`
outcome, the driver performs exactly these effects, in order: it records
a `connection_error` metric, logs the error via the error log, records a
`blacklist_add` metric, blacklists `addr` with a deadline a jittered
duration in the configured range from now, and returns the address to
the aligner via `put`; the drain then continues on the rest of the
script. -/
theorem c6_cant_connect {I : Type} (a err : Nat) (st : St I)
    (rest : List (FEv I)) (h : st.script = FEv.cantConnect a err :: rest)
    (hf : st.futcount ≠ 0) :
    ∃ dur : Nat,
      (st.reconnectMs.1 < st.reconnectMs.2 →
        st.reconnectMs.1 ≤ dur ∧ dur < st.reconnectMs.2) ∧
      pollFutures st = pollFutures
        { st with
          script := rest
          futcount := st.futcount - 1
          rng := st.rng.tail
          trace := st.trace ++
            [Ev.connectionErrorMetric, Ev.logConnError a err,
             Ev.blacklistAdd, Ev.blacklisted a (st.now + dur),
             Ev.alignerPut a]
          blist := blistInsert st.blist a (st.now + dur)
          aligner := st.aligner.put a } := by
  refine ⟨genRange st.reconnectMs.1 st.reconnectMs.2 (st.rng.headD 0),
    fun hlt => ⟨Nat.le_add_right _ _, ?_⟩, ?_⟩
  · have hpos : 0 < st.reconnectMs.2 - st.reconnectMs.1 :=
      Nat.sub_pos_of_lt hlt
    have := Nat.mod_lt (st.rng.headD 0) hpos
    unfold genRange
    omega
  · rw [pollFutures_cons st _ rest h hf (by simp)]
    rfl

/-- Witness for C6 at a concrete state. -/
theorem c6_cant_connect_witness :
    ∃ dur : Nat,
      (wCant.reconnectMs.1 < wCant.reconnectMs.2 →
        wCant.reconnectMs.1 ≤ dur ∧ dur < wCant.reconnectMs.2) ∧
      pollFutures wCant = pollFutures
        { wCant with
          script := [FEv.notReady]
          futcount := wCant.futcount - 1
          rng := wCant.rng.tail
          trace := wCant.trace ++
            [Ev.connectionErrorMetric, Ev.logConnError 7 3,
             Ev.blacklistAdd, Ev.blacklisted 7 (wCant.now + dur),
             Ev.alignerPut 7]
          blist := blistInsert wCant.blist 7 (wCant.now + dur)
          aligner := wCant.aligner.put 7 } :=
  c6_cant_connect 7 3 wCant [FEv.notReady] rfl (by decide)

/-- C7: when draining the future set yields a `Disconnected(addr, err)`
outcome, the driver records a `disconnect` metric, logs the sink error
and returns the address to the aligner via `put`; it does not blacklist
the address, so its failing status is unchanged and a new connect
attempt to it remains permitted. -/
theorem c7_disconnected {I : Type} (a err : Nat) (st : St I)
    (rest : List (FEv I)) (h : st.script = FEv.disconnected a err :: rest)
    (hf : st.futcount ≠ 0) :
    pollFutures st = pollFutures
      { st with
        script := rest
        futcount := st.futcount - 1
        trace := st.trace ++
          [Ev.disconnectMetric, Ev.logSinkErr a err, Ev.alignerPut a]
        aligner := st.aligner.put a } ∧
    (drainStep (FEv.disconnected a err) { st with script := rest }).blist =
      st.blist ∧
    (∀ x, isFailing
        (drainStep (FEv.disconnected a err) { st with script := rest }).blist
        x = isFailing st.blist x) := by
  refine ⟨?_, rfl, fun x => rfl⟩
  rw [pollFutures_cons st _ rest h hf (by simp)]
  rfl

/-- Witness for C7 at a concrete state. -/
theorem c7_disconnected_witness :
    pollFutures wDisc = pollFutures
      { wDisc with
        script := [FEv.notReady]
        futcount := wDisc.futcount - 1
        trace := wDisc.trace ++
          [Ev.disconnectMetric, Ev.logSinkErr 7 3, Ev.alignerPut 7]
        aligner := wDisc.aligner.put 7 } ∧
    (drainStep (FEv.disconnected 7 3) { wDisc with script := [FEv.notReady] }).blist =
      wDisc.blist ∧
    (∀ x, isFailing
        (drainStep (FEv.disconnected 7 3) { wDisc with script := [FEv.notReady] }).blist
        x = isFailing wDisc.blist x) :=
  c7_disconnected 7 3 wDisc [FEv.notReady] rfl (by decide)

/-- C5 counterexample: with `reconnect_timeout` equal to exactly 1 ms
(the smallest value the claim admits), the computed range is `[0, 1)`,
so the sampled duration (here at oracle value 7) is 0 ms, which is less
than half the configured timeout (0.5 ms): the claimed lower bound
`reconnect_timeout / 2` fails in real time units. -/
theorem c5_counterexample :
    2 * (genRange (reconnRange 0 1000000).1 (reconnRange 0 1000000).2 7
        * 1000000) < 0 * 1000000000 + 1000000 := by
  decide

/-- C5 amended: the blacklist duration is drawn from the half-open
interval `[m / 2, m * 3 / 2)` where `m` is the configured timeout
truncated to whole milliseconds (so for odd or fractional-millisecond
timeouts it may undershoot half the timeout by less than a millisecond);
the upper bound holds as claimed: the duration is strictly below
`3/2` of the configured timeout in real time units. -/
theorem c5_amended (secs nanos r : Nat) (h : 1 ≤ reconnMs secs nanos) :
    (reconnRange secs nanos).1 ≤
      genRange (reconnRange secs nanos).1 (reconnRange secs nanos).2 r ∧
    genRange (reconnRange secs nanos).1 (reconnRange secs nanos).2 r <
      (reconnRange secs nanos).2 ∧
    2 * (genRange (reconnRange secs nanos).1 (reconnRange secs nanos).2 r
        * 1000000) < 3 * (secs * 1000000000 + nanos) := by
  have hm : reconnMs secs nanos * 1000000 ≤ secs * 1000000000 + nanos := by
    unfold reconnMs
    have := Nat.div_mul_le_self nanos 1000000
    omega
  have hlo : (reconnRange secs nanos).1 = reconnMs secs nanos / 2 := rfl
  have hhi : (reconnRange secs nanos).2 = reconnMs secs nanos * 3 / 2 := rfl
  set m := reconnMs secs nanos with hmdef
  have hlt : m / 2 < m * 3 / 2 := by omega
  have hpos : 0 < m * 3 / 2 - m / 2 := Nat.sub_pos_of_lt hlt
  have hmod := Nat.mod_lt r hpos
  have hg : genRange (reconnRange secs nanos).1 (reconnRange secs nanos).2 r =
      m / 2 + r % (m * 3 / 2 - m / 2) := rfl
  refine ⟨Nat.le_add_right _ _, ?_, ?_⟩
  · rw [hg, hhi]
    omega
  · rw [hg]
    have hup : m / 2 + r % (m * 3 / 2 - m / 2) < m * 3 / 2 := by omega
    have h32 : 2 * (m * 3 / 2) ≤ 3 * m := by omega
    nlinarith [hup, hm, h32]

/-- Witness for C5 amended at a 100 ms timeout and oracle value 12345. -/
theorem c5_amended_witness :
    1 ≤ reconnMs 0 100000000 ∧
    ((reconnRange 0 100000000).1 ≤
      genRange (reconnRange 0 100000000).1 (reconnRange 0 100000000).2 12345 ∧
    genRange (reconnRange 0 100000000).1 (reconnRange 0 100000000).2 12345 <
      (reconnRange 0 100000000).2 ∧
    2 * (genRange (reconnRange 0 100000000).1 (reconnRange 0 100000000).2 12345
        * 1000000) < 3 * (0 * 1000000000 + 100000000)) :=
  ⟨by decide, c5_amended 0 100000000 12345 (by decide)⟩

/-- C9: `close` never returns an error: for every pool state it returns
`Ok`, yielding `Ready` exactly when the future set is empty after
draining and `NotReady` otherwise; it never yields the `Done` error,
not even on a fully drained pool. -/
theorem c9_close_ok {I : Type} (st : St I) :
    (closeOp st).1 ≠ PollRes.doneErr ∧
    ((closeOp st).1 = PollRes.ready ↔
      (pollFutures (startClosing st)).futcount = 0) ∧
    ((closeOp st).1 = PollRes.notReady ↔
      (pollFutures (startClosing st)).futcount ≠ 0) := by
  unfold closeOp
  by_cases h : (pollFutures (startClosing st)).futcount = 0 <;>
    simp [h]

/-- Witness for C9 at a concrete drained closing state. -/
theorem c9_close_ok_witness :
    (closeOp wClosing).1 ≠ PollRes.doneErr ∧
    ((closeOp wClosing).1 = PollRes.ready ↔
      (pollFutures (startClosing wClosing)).futcount = 0) ∧
    ((closeOp wClosing).1 = PollRes.notReady ↔
      (pollFutures (startClosing wClosing)).futcount ≠ 0) :=
  c9_close_ok wClosing

lemma phases_ne_done {I : Type} (fuel : Nat) :
    (∀ (v : I) (st : St I), (dispatchPhase fuel v st).1 ≠ SendRes.doneErr) ∧
    (∀ (v : I) (st : St I), (connectPhase fuel v st).1 ≠ SendRes.doneErr) := by
  induction fuel with
  | zero =>
    exact ⟨fun v st => by simp [dispatchPhase],
           fun v st => by simp [connectPhase]⟩
  | succ n ih =>
    constructor
    · intro v st
      cases hq : st.queue with
      | cons cid restq =>
        simp only [dispatchPhase, hq]
        split
        · exact ih.1 v _
        · split
          · exact ih.1 _ _
          · simp
      | nil =>
        simp only [dispatchPhase, hq]
        cases hq2 : (pollFutures st).queue with
        | cons c t =>
          simp only [hq2]
          exact ih.1 v _
        | nil =>
          simp only [hq2]
          exact ih.2 v _
    · intro v st
      cases hdc : doConnect st with
      | mk o st1 =>
        cases o with
        | some addr =>
          simp only [connectPhase, hdc]
          cases hq2 : (pollFutures st1).queue with
          | cons c t =>
            simp only [hq2]
            exact ih.1 v _
          | nil =>
            simp only [hq2]
            split
            · exact ih.2 v _
            · simp
        | none =>
          simp only [connectPhase, hdc]
          cases hb : blistPollStep st1 with
          | mk r stb =>
            cases r with
            | true =>
              simp only [hb]
              exact ih.2 v _
            | false =>
              simp only [hb]
              simp

/-- C1: `start_send` and `poll_complete` return the `Done` error exactly
when the pool is closing and, after draining, the future set is empty;
when closing with futures remaining, `start_send` returns
`NotReady` carrying the item back and `poll_complete` returns
`NotReady`; and neither operation returns `Done` from a non-closing
state. -/
theorem c1_done_iff {I : Type} (fuel : Nat) (v : I) (st : St I) :
    ((startSend fuel v st).1 = SendRes.doneErr ↔
      st.closing = true ∧ (pollFutures st).futcount = 0) ∧
    ((pollComplete st).1 = PollRes.doneErr ↔
      st.closing = true ∧ (pollFutures st).futcount = 0) ∧
    (st.closing = true → (pollFutures st).futcount ≠ 0 →
      (startSend fuel v st).1 = SendRes.notReady v ∧
      (pollComplete st).1 = PollRes.notReady) := by
  by_cases hc : st.closing = true
  · by_cases hf : (pollFutures st).futcount = 0 <;>
      simp [startSend, pollComplete, hc, hf]
  · have hd := (phases_ne_done fuel).1 v (checkForAddressUpdates st)
    simp [startSend, pollComplete, hc, hd]

/-- Witness for C1 at a concrete closing state with one future left. -/
theorem c1_done_iff_witness :
    (startSend 3 5 wClosing).1 = SendRes.notReady 5 ∧
    (pollComplete wClosing).1 = PollRes.notReady :=
  (c1_done_iff 3 5 wClosing).2.2 rfl (by decide)

/-- C4: the connection registry preserves the queued-flag invariant:
`add` requires the controller to be neither closed nor queued (its
assertions fail otherwise), sets `queued` and pushes to the back;
`next` pops from the front and clears `queued`; and both operations
preserve the invariant that `queued` holds exactly for the controllers
in the queue, so a closed controller never enters the queue via `add`. -/
theorem c4_registry :
    (∀ (c : Connections) (cid : Nat),
      (∃ c2, c.add cid = some c2) ↔
        ((c.cstore cid).closed = false ∧ (c.cstore cid).queued = false)) ∧
    (∀ (c c2 : Connections) (cid : Nat), c.add cid = some c2 →
      c2.queue = c.queue ++ [cid] ∧ (c2.cstore cid).queued = true ∧
      (c2.cstore cid).closed = false ∧
      ∀ x, x ≠ cid → c2.cstore x = c.cstore x) ∧
    (∀ (c : Connections) (cid : Nat) (rest : List Nat),
      c.queue = cid :: rest → (c.cstore cid).queued = true →
      ∃ c2, c.next = some (some cid, c2) ∧ c2.queue = rest ∧
        (c2.cstore cid).queued = false ∧
        ∀ x, x ≠ cid → c2.cstore x = c.cstore x) ∧
    (∀ (c c2 : Connections) (cid : Nat), RegistryInv c →
      c.add cid = some c2 → RegistryInv c2) ∧
    (∀ (c c2 : Connections) (o : Option Nat), RegistryInv c →
      c.next = some (o, c2) → RegistryInv c2) := by
  have hadd : ∀ (c c2 : Connections) (cid : Nat), c.add cid = some c2 →
      (c.cstore cid).closed = false ∧ (c.cstore cid).queued = false ∧
      c2.queue = c.queue ++ [cid] ∧
      (c2.cstore cid).queued = true ∧ (c2.cstore cid).closed = false ∧
      ∀ x, x ≠ cid → c2.cstore x = c.cstore x := by
    intro c c2 cid h
    cases h1 : (c.cstore cid).closed <;> cases h2 : (c.cstore cid).queued <;>
      simp [Connections.add, h1, h2] at h
    subst h
    exact ⟨rfl, rfl, rfl, by simp, by simp, fun x hx => by simp [hx]⟩
  refine ⟨?_, ?_, ?_, ?_, ?_⟩
  · intro c cid
    constructor
    · rintro ⟨c2, h⟩
      obtain ⟨h1, h2, _⟩ := hadd c c2 cid h
      exact ⟨h1, h2⟩
    · rintro ⟨h1, h2⟩
      exact ⟨_, by unfold Connections.add; rw [h1, h2]; rfl⟩
  · intro c c2 cid h
    obtain ⟨_, _, h3, h4, h5, h6⟩ := hadd c c2 cid h
    exact ⟨h3, h4, h5, h6⟩
  · intro c cid rest hq hqd
    refine ⟨{ c with
        cstore := fun x =>
          if x = cid then { c.cstore cid with queued := false }
          else c.cstore x,
        queue := rest }, ?_, rfl, by simp, fun x hx => by simp [hx]⟩
    unfold Connections.next
    rw [hq]
    simp [hqd]
  · intro c c2 cid hinv h
    obtain ⟨h1, h2, h3, h4, h5, h6⟩ := hadd c c2 cid h
    obtain ⟨hmem, hnd⟩ := hinv
    have hnot : cid ∉ c.queue := fun hin => by
      rw [← hmem cid] at hin
      simp [h2] at hin
    constructor
    · intro x
      rw [h3]
      by_cases hx : x = cid
      · subst hx
        simp [h4]
      · rw [h6 x hx]
        simpa [hx] using (hmem x)
    · rw [h3]
      simp [List.nodup_append, hnd, hnot]
  · intro c c2 o hinv h
    obtain ⟨hmem, hnd⟩ := hinv
    unfold Connections.next at h
    cases hq : c.queue with
    | nil =>
      rw [hq] at h
      simp at h
      obtain ⟨_, rfl⟩ := h
      exact ⟨hmem, by rw [hq] at hnd ⊢; exact hnd⟩
    | cons cid rest =>
      rw [hq] at h
      cases hqd : (c.cstore cid).queued with
      | false => simp [hqd] at h
      | true =>
        simp [hqd] at h
        obtain ⟨_, rfl⟩ := h
        rw [hq] at hnd
        have hcidout : cid ∉ rest := (List.nodup_cons.mp hnd).1
        constructor
        · intro x
          by_cases hx : x = cid
          · subst hx
            simp [hcidout]
          · have := hmem x
            rw [hq] at this
            simpa [hx] using this
        · exact (List.nodup_cons.mp hnd).2

/-- Witness for C4: a successful `add` at a concrete registry, checked
through the success-condition conjunct. -/
theorem c4_registry_witness :
    (∃ c2, wReg.add 0 = some c2) ↔
      ((wReg.cstore 0).closed = false ∧ (wReg.cstore 0).queued = false) :=
  c4_registry.1 wReg 0

lemma pollAddrGo_ready_chain (as2 : List Address) (a : Address)
    (rest : List APoll) (acc : Option Address) :
    pollAddrGo ((as2 ++ [a]).map APoll.ready ++ APoll.notReady :: rest) acc =
      (some a, false, rest) := by
  induction as2 generalizing acc with
  | nil => rfl
  | cons b bs ih => simpa [pollAddrGo] using ih (some b)

lemma pollAddrGo_eos (as2 : List Address) (rest : List APoll)
    (acc : Option Address) :
    pollAddrGo (as2.map APoll.ready ++ APoll.eos :: rest) acc =
      (none, true, rest) := by
  induction as2 generalizing acc with
  | nil => rfl
  | cons b bs ih => simpa [pollAddrGo] using ih (some b)

lemma startClosing_closing {I : Type} (st : St I) :
    (startClosing st).closing = true := by
  unfold startClosing
  split
  · assumption
  · rfl

lemma startClosing_frame {I : Type} (st : St I) :
    (startClosing st).curAddress = st.curAddress ∧
    (startClosing st).aligner = st.aligner ∧
    (startClosing st).trace = st.trace ∧
    (startClosing st).script = st.script ∧
    (startClosing st).queue = st.queue ∧
    (startClosing st).blist = st.blist ∧
    (startClosing st).addrScript = st.addrScript ∧
    (startClosing st).futcount = st.futcount := by
  unfold startClosing
  split <;> exact ⟨rfl, rfl, rfl, rfl, rfl, rfl, rfl, rfl⟩

/-- C8: address-update reconciliation pulls from the address stream
until it pends or ends, keeping only the latest snapshot; end-of-stream
starts graceful shutdown; and when the latest snapshot differs from the
current one, the `(retired, added)` pair is computed on the
primary-priority views, every controller in the `all` set whose address
was retired is closed, the aligner is updated with `(added, retired)`,
and the new snapshot is recorded. -/
theorem c8_reconcile {I : Type} :
    (∀ (as2 : List Address) (a : Address) (rest : List APoll)
        (acc : Option Address),
      pollAddrGo ((as2 ++ [a]).map APoll.ready ++ APoll.notReady :: rest)
          acc = (some a, false, rest)) ∧
    (∀ (st : St I) (as2 : List Address) (rest : List APoll),
      st.addrScript = as2.map APoll.ready ++ APoll.eos :: rest →
      (newAddr st).1 = none ∧ (newAddr st).2.closing = true ∧
        Ev.logShutdown ∈ (newAddr st).2.trace) ∧
    (∀ (st st1 : St I) (na : Address), newAddr st = (some na, st1) →
      na ≠ st1.curAddress →
      (∀ c, st1.allSet.contains c = true →
        (compareAddresses st1.curAddress.prim na.prim).1.contains
          (st1.store c).addr = true →
        ((checkForAddressUpdates st).store c).closed = true) ∧
      (∀ c, (compareAddresses st1.curAddress.prim na.prim).1.contains
          (st1.store c).addr = false →
        (checkForAddressUpdates st).store c = st1.store c) ∧
      (checkForAddressUpdates st).aligner =
        st1.aligner.update (compareAddresses st1.curAddress.prim na.prim).2
          (compareAddresses st1.curAddress.prim na.prim).1 ∧
      (checkForAddressUpdates st).curAddress = na ∧
      (checkForAddressUpdates st).trace = st1.trace ++
        [Ev.alignerUpdate (compareAddresses st1.curAddress.prim na.prim).2
          (compareAddresses st1.curAddress.prim na.prim).1]) := by
  refine ⟨pollAddrGo_ready_chain, ?_, ?_⟩
  · intro st as2 rest h
    unfold newAddr
    rw [h, pollAddrGo_eos]
    refine ⟨rfl, startClosing_closing _, ?_⟩
    show Ev.logShutdown ∈
      (startClosing
        { st with
          addrScript := rest
          trace := st.trace ++ [Ev.logShutdown] }).trace
    rw [(startClosing_frame _).2.2.1]
    simp
  · intro st st1 na hna hne
    have hc : checkForAddressUpdates st =
        { closeRetired (compareAddresses st1.curAddress.prim na.prim).1 st1 with
          aligner := st1.aligner.update
            (compareAddresses st1.curAddress.prim na.prim).2
            (compareAddresses st1.curAddress.prim na.prim).1
          trace := st1.trace ++
            [Ev.alignerUpdate (compareAddresses st1.curAddress.prim na.prim).2
              (compareAddresses st1.curAddress.prim na.prim).1]
          curAddress := na } := by
      unfold checkForAddressUpdates
      rw [hna]
      dsimp only
      rw [if_neg hne]
      rfl
    rw [hc]
    refine ⟨?_, ?_, rfl, rfl, rfl⟩
    · intro c hall hret
      simp only [closeRetired]
      rw [if_pos (by rw [hall, hret]; rfl)]
    · intro c hret
      simp only [closeRetired]
      rw [if_neg (fun hand => by
        rw [hret, Bool.and_false] at hand
        exact Bool.noConfusion hand)]

/-- Witness for C8: the snapshot-difference conjunct applied at a
concrete state that receives a fresh snapshot retiring address 1 and
adding address 3. -/
theorem c8_reconcile_witness :
    (∀ c, ({ wUpd with addrScript := [] } : St Nat).allSet.contains c = true →
      (compareAddresses ({ wUpd with addrScript := [] } : St Nat).curAddress.prim
          wAddrB.prim).1.contains
        (({ wUpd with addrScript := [] } : St Nat).store c).addr = true →
      ((checkForAddressUpdates wUpd).store c).closed = true) ∧
    (∀ c, (compareAddresses ({ wUpd with addrScript := [] } : St Nat).curAddress.prim
          wAddrB.prim).1.contains
        (({ wUpd with addrScript := [] } : St Nat).store c).addr = false →
      (checkForAddressUpdates wUpd).store c =
        ({ wUpd with addrScript := [] } : St Nat).store c) ∧
    (checkForAddressUpdates wUpd).aligner =
      ({ wUpd with addrScript := [] } : St Nat).aligner.update
        (compareAddresses ({ wUpd with addrScript := [] } : St Nat).curAddress.prim
          wAddrB.prim).2
        (compareAddresses ({ wUpd with addrScript := [] } : St Nat).curAddress.prim
          wAddrB.prim).1 ∧
    (checkForAddressUpdates wUpd).curAddress = wAddrB ∧
    (checkForAddressUpdates wUpd).trace =
      ({ wUpd with addrScript := [] } : St Nat).trace ++
        [Ev.alignerUpdate
          (compareAddresses ({ wUpd with addrScript := [] } : St Nat).curAddress.prim
            wAddrB.prim).2
          (compareAddresses ({ wUpd with addrScript := [] } : St Nat).curAddress.prim
            wAddrB.prim).1] :=
  c8_reconcile.2.2 wUpd { wUpd with addrScript := [] } wAddrB
    rfl (by decide)

/-- C10: if the address stream yields snapshots and then end-of-stream
within a single drain, the snapshots are discarded without being
applied: no controller is closed for retirement, the aligner is not
updated, the current snapshot is unchanged and no `aligner.update` call
is traced; only the closing transition (which closes all controllers)
takes place. -/
theorem c10_eos_discard {I : Type} (st : St I) (as2 : List Address)
    (rest : List APoll)
    (h : st.addrScript = as2.map APoll.ready ++ APoll.eos :: rest) :
    checkForAddressUpdates st =
      startClosing
        { st with
          addrScript := rest
          trace := st.trace ++ [Ev.logShutdown] } ∧
    (checkForAddressUpdates st).curAddress = st.curAddress ∧
    (checkForAddressUpdates st).aligner = st.aligner ∧
    (checkForAddressUpdates st).closing = true ∧
    (checkForAddressUpdates st).trace = st.trace ++ [Ev.logShutdown] := by
  have hn : newAddr st = (none,
      startClosing
        { st with
          addrScript := rest
          trace := st.trace ++ [Ev.logShutdown] }) := by
    unfold newAddr
    rw [h, pollAddrGo_eos]
    rfl
  have hc : checkForAddressUpdates st =
      startClosing
        { st with
          addrScript := rest
          trace := st.trace ++ [Ev.logShutdown] } := by
    unfold checkForAddressUpdates
    rw [hn]
  refine ⟨hc, ?_, ?_, ?_, ?_⟩
  · rw [hc, (startClosing_frame _).1]
  · rw [hc, (startClosing_frame _).2.1]
  · rw [hc]
    exact startClosing_closing _
  · rw [hc, (startClosing_frame _).2.2.1]

/-- Witness for C10 at a concrete state whose stream yields one snapshot
and then ends. -/
theorem c10_eos_discard_witness :
    checkForAddressUpdates wEos =
      startClosing
        { wEos with
          addrScript := []
          trace := wEos.trace ++ [Ev.logShutdown] } ∧
    (checkForAddressUpdates wEos).curAddress = wEos.curAddress ∧
    (checkForAddressUpdates wEos).aligner = wEos.aligner ∧
    (checkForAddressUpdates wEos).closing = true ∧
    (checkForAddressUpdates wEos).trace = wEos.trace ++ [Ev.logShutdown] :=
  c10_eos_discard wEos [wAddrB] [] rfl

lemma dispatch_cons_closed {I : Type} (n : Nat) (v : I) (st : St I)
    (cid : Nat) (restq : List Nat) (hq : st.queue = cid :: restq)
    (hcl : (st.store cid).closed = true) :
    dispatchPhase (n + 1) v st = dispatchPhase n v (popStep cid restq st) := by
  obtain ⟨f1, f2, f3, f4, f5, f6, f7, f8, f9, f10, f11, f12, f13, f14, f15,
    f16⟩ := st
  simp only at hq hcl
  subst hq
  simp [dispatchPhase, hcl]

lemma dispatch_cons_live {I : Type} (n : Nat) (v : I) (st : St I)
    (cid : Nat) (restq : List Nat) (hq : st.queue = cid :: restq)
    (hcl : (st.store cid).closed = false) :
    dispatchPhase (n + 1) v st = liveStep cid restq v n st := by
  obtain ⟨f1, f2, f3, f4, f5, f6, f7, f8, f9, f10, f11, f12, f13, f14, f15,
    f16⟩ := st
  simp only at hq hcl
  subst hq
  simp [dispatchPhase, hcl, liveStep]

lemma dispatch_nil_ready {I : Type} (n : Nat) (v : I) (st : St I)
    (c : Nat) (t : List Nat) (hq : st.queue = [])
    (hq2 : (pollFutures st).queue = c :: t) :
    dispatchPhase (n + 1) v st = dispatchPhase n v (pollFutures st) := by
  obtain ⟨f1, f2, f3, f4, f5, f6, f7, f8, f9, f10, f11, f12, f13, f14, f15,
    f16⟩ := st
  simp only at hq
  subst hq
  simp only [dispatchPhase]
  rw [hq2]

lemma dispatch_nil_empty {I : Type} (n : Nat) (v : I) (st : St I)
    (hq : st.queue = []) (hq2 : (pollFutures st).queue = []) :
    dispatchPhase (n + 1) v st = connectPhase n v (pollFutures st) := by
  obtain ⟨f1, f2, f3, f4, f5, f6, f7, f8, f9, f10, f11, f12, f13, f14, f15,
    f16⟩ := st
  simp only at hq
  subst hq
  simp only [dispatchPhase]
  rw [hq2]

lemma connect_some_ready {I : Type} (n : Nat) (v : I) (st st1 : St I)
    (a c : Nat) (t : List Nat) (hdc : doConnect st = (some a, st1))
    (hq2 : (pollFutures st1).queue = c :: t) :
    connectPhase (n + 1) v st = dispatchPhase n v (pollFutures st1) := by
  simp only [connectPhase]
  rw [hdc]
  dsimp only
  rw [hq2]

lemma connect_some_wait {I : Type} (n : Nat) (v : I) (st st1 : St I)
    (a : Nat) (hdc : doConnect st = (some a, st1))
    (hq2 : (pollFutures st1).queue = [])
    (hbl : isFailing (pollFutures st1).blist a = false) :
    connectPhase (n + 1) v st = (SendRes.notReady v, pollFutures st1) := by
  simp only [connectPhase]
  rw [hdc]
  dsimp only
  rw [hq2]
  simp [hbl]

lemma connect_some_failing {I : Type} (n : Nat) (v : I) (st st1 : St I)
    (a : Nat) (hdc : doConnect st = (some a, st1))
    (hq2 : (pollFutures st1).queue = [])
    (hbl : isFailing (pollFutures st1).blist a = true) :
    connectPhase (n + 1) v st = connectPhase n v (pollFutures st1) := by
  simp only [connectPhase]
  rw [hdc]
  dsimp only
  rw [hq2]
  simp [hbl]

lemma connect_none_expired {I : Type} (n : Nat) (v : I) (st stb : St I)
    (hdc : (doConnect st).1 = none) (hb : blistPollStep st = (true, stb)) :
    connectPhase (n + 1) v st = connectPhase n v
      (blistDrainAll { stb with trace := stb.trace ++ [Ev.blacklistRemove] }) := by
  have hdc2 : doConnect st = (none, st) := by
    unfold doConnect at hdc ⊢
    cases hget : st.aligner.get st.connLimit (fun a => isFailing st.blist a) with
    | mk o al2 =>
      rw [hget] at hdc
      cases o with
      | some x => simp at hdc
      | none => rfl
  simp only [connectPhase]
  rw [hdc2]
  dsimp only
  rw [hb]

lemma connect_none_block {I : Type} (n : Nat) (v : I) (st st2 : St I)
    (hdc : (doConnect st).1 = none) (hb : blistPollStep st = (false, st2)) :
    connectPhase (n + 1) v st = (SendRes.notReady v, st2) := by
  have hdc2 : doConnect st = (none, st) := by
    unfold doConnect at hdc ⊢
    cases hget : st.aligner.get st.connLimit (fun a => isFailing st.blist a) with
    | mk o al2 =>
      rw [hget] at hdc
      cases o with
      | some x => simp at hdc
      | none => rfl
  simp only [connectPhase]
  rw [hdc2]
  dsimp only
  rw [hb]

lemma popStep_closed {I : Type} (d : Nat) (r : List Nat) (s : St I) (x : Nat) :
    ((popStep d r s).store x).closed = (s.store x).closed := by
  by_cases h : x = d <;> simp [popStep, updStore, h]

lemma skipClosed_queue_indep {I : Type} (ds : List Nat) (s : St I)
    (q : List Nat) :
    skipClosed ds { s with queue := q } = { skipClosed ds s with queue := q } := by
  induction ds generalizing s with
  | nil => rfl
  | cons d ds2 ih =>
    show skipClosed ds2 (clearQ d { s with queue := q }) = _
    have h1 : clearQ d { s with queue := q } = { clearQ d s with queue := q } := rfl
    rw [h1, ih]
    rfl

/-- C2: in the non-closing state, the dispatch loop of `start_send` pops
controllers from the ready queue in FIFO order, skips every closed one,
and gives the item to the first live one via `request`; it then drains
the future set and checks `request_back`: if the item came back,
dispatch continues with the returned item, otherwise `start_send`
returns `Ready`.  The second conjunct ties `start_send` in the
non-closing state to the dispatch loop after the address-update check. -/
theorem c2_dispatch {I : Type} :
    (∀ (ds : List Nat) (cid : Nat) (q2 : List Nat) (v : I) (st : St I)
        (fuel : Nat),
      (∀ d ∈ ds, (st.store d).closed = true) →
      (st.store cid).closed = false →
      st.queue = ds ++ cid :: q2 →
      dispatchPhase (fuel + (ds.length + 1)) v st =
        liveStep cid q2 v fuel (skipClosed ds st)) ∧
    (∀ (fuel : Nat) (v : I) (st : St I), st.closing = false →
      startSend fuel v st = dispatchPhase fuel v (checkForAddressUpdates st)) := by
  constructor
  · intro ds
    induction ds with
    | nil =>
      intro cid q2 v st fuel hds hlive hq
      have harith : fuel + (List.length ([] : List Nat) + 1) = fuel + 1 := rfl
      rw [harith, dispatch_cons_live fuel v st cid q2 (by simpa using hq) hlive]
      rfl
    | cons d ds2 ih =>
      intro cid q2 v st fuel hds hlive hq
      have harith : fuel + (List.length (d :: ds2) + 1) =
          (fuel + (ds2.length + 1)) + 1 := by
        simp [List.length_cons]
        omega
      rw [harith,
        dispatch_cons_closed _ v st d (ds2 ++ cid :: q2) (by simpa using hq)
          (hds d (by simp))]
      have hds2 : ∀ x ∈ ds2,
          (((popStep d (ds2 ++ cid :: q2) st).store x).closed) = true := by
        intro x hx
        rw [popStep_closed]
        exact hds x (by simp [hx])
      have hlive2 : ((popStep d (ds2 ++ cid :: q2) st).store cid).closed =
          false := by
        rw [popStep_closed]
        exact hlive
      rw [ih cid q2 v (popStep d (ds2 ++ cid :: q2) st) fuel hds2 hlive2 rfl]
      have h1 : popStep d (ds2 ++ cid :: q2) st =
          { clearQ d st with queue := ds2 ++ cid :: q2 } := rfl
      rw [h1, skipClosed_queue_indep]
      rfl
  · intro fuel v st hc
    simp [startSend, hc]

/-- Witness for C2: one closed controller in front of a live one in a
concrete state. -/
theorem c2_dispatch_witness :
    dispatchPhase (3 + (List.length [1] + 1)) 42 wSkip =
      liveStep 0 [] 42 3 (skipClosed [1] wSkip) :=
  c2_dispatch.1 [1] 0 [] 42 wSkip 3 (by decide) (by decide) rfl

lemma foldl_min_mem (l : List (SockAddr × Nat)) (b : SockAddr × Nat) :
    l.foldl (fun b q => if q.2 < b.2 then q else b) b ∈ b :: l := by
  induction l generalizing b with
  | nil => simp
  | cons q rest ih =>
    have h := ih (if q.2 < b.2 then q else b)
    simp only [List.foldl_cons]
    rcases List.mem_cons.mp h with h1 | h1
    · rw [h1]
      split <;> simp
    · simp [h1]

lemma pickMin_mem (l : List (SockAddr × Nat)) (p : SockAddr × Nat)
    (h : pickMin l = some p) : p ∈ l := by
  cases l with
  | nil => simp [pickMin] at h
  | cons q rest =>
    simp only [pickMin, Option.some_inj] at h
    rw [← h]
    exact foldl_min_mem rest q

lemma keys_map_pres (f : SockAddr × Nat → SockAddr × Nat)
    (hf : ∀ p, (f p).1 = p.1) (l : List (SockAddr × Nat)) :
    (l.map f).map Prod.fst = l.map Prod.fst := by
  induction l with
  | nil => rfl
  | cons q rest ih => simp [hf, ih]

lemma cap_put_le (a : SockAddr) (limit : Nat) (l : List (SockAddr × Nat))
    (hnd : (l.map Prod.fst).Nodup) :
    ((l.map (fun p => if p.1 = a then (p.1, p.2 - 1) else p)).map
      (fun p => limit - p.2)).sum ≤
      ((l.map (fun p => limit - p.2)).sum) + 1 := by
  induction l with
  | nil => simp
  | cons q rest ih =>
    simp only [List.map_cons, List.sum_cons] at *
    have hq := (List.nodup_cons.mp hnd).1
    have hrest := (List.nodup_cons.mp hnd).2
    by_cases hqa : q.1 = a
    · have hmap : rest.map (fun p => if p.1 = a then (p.1, p.2 - 1) else p) =
          rest.map id := by
        apply List.map_congr_left
        intro p hp
        have hpa : p.1 ≠ a := by
          intro hpa
          apply hq
          rw [hqa, ← hpa]
          exact List.mem_map.mpr ⟨p, hp, rfl⟩
        simp [hpa]
      rw [hmap, List.map_id, if_pos hqa]
      have : limit - (q.2 - 1) ≤ (limit - q.2) + 1 := by omega
      omega
    · rw [if_neg hqa]
      have := ih hrest
      omega

lemma cap_incr_lt (p : SockAddr × Nat) (limit : Nat)
    (l : List (SockAddr × Nat)) (hnd : (l.map Prod.fst).Nodup)
    (hmem : p ∈ l) (hlt : p.2 < limit) :
    ((l.map (fun q => if q.1 = p.1 then (q.1, q.2 + 1) else q)).map
      (fun q => limit - q.2)).sum + 1 ≤
      ((l.map (fun q => limit - q.2)).sum) := by
  induction l with
  | nil => simp at hmem
  | cons q rest ih =>
    simp only [List.map_cons, List.sum_cons] at *
    have hq := (List.nodup_cons.mp hnd).1
    have hrest := (List.nodup_cons.mp hnd).2
    rcases List.mem_cons.mp hmem with h1 | h1
    · subst h1
      have hmap : rest.map (fun q => if q.1 = p.1 then (q.1, q.2 + 1) else q) =
          rest.map id := by
        apply List.map_congr_left
        intro r hr
        have hrp : r.1 ≠ p.1 := by
          intro hra
          exact hq (List.mem_map.mpr ⟨r, hr, hra⟩)
        simp [hrp]
      rw [hmap, List.map_id, if_pos rfl]
      omega
    · have hqp : q.1 ≠ p.1 := by
        intro hqe
        refine hq (List.mem_map.mpr ⟨p, h1, ?_⟩)
        rw [hqe]
      rw [if_neg hqp]
      have := ih hrest h1
      omega

lemma put_props (al : Aligner) (a : SockAddr) (limit : Nat)
    (hnd : (al.entries.map Prod.fst).Nodup) :
    (al.put a).capacity limit ≤ al.capacity limit + 1 ∧
    (al.put a).entries.map Prod.fst = al.entries.map Prod.fst := by
  constructor
  · exact cap_put_le a limit al.entries hnd
  · exact keys_map_pres _ (fun p => by split <;> rfl) al.entries

lemma get_some_props (al : Aligner) (limit : Nat) (failing : SockAddr → Bool)
    (a : SockAddr) (al2 : Aligner)
    (hnd : (al.entries.map Prod.fst).Nodup)
    (h : al.get limit failing = (some a, al2)) :
    al2.capacity limit + 1 ≤ al.capacity limit ∧
    al2.entries.map Prod.fst = al.entries.map Prod.fst := by
  unfold Aligner.get at h
  cases hpm : pickMin (al.entries.filter (fun p => p.2 < limit && !failing p.1)) with
  | none => rw [hpm] at h; simp at h
  | some p =>
    rw [hpm] at h
    simp only [Prod.mk.injEq, Option.some_inj] at h
    obtain ⟨ha, hal2⟩ := h
    have hpel := pickMin_mem _ _ hpm
    have hpmem : p ∈ al.entries := (List.mem_filter.mp hpel).1
    have hplt : p.2 < limit := by
      have := (List.mem_filter.mp hpel).2
      simp at this
      exact this.1
    constructor
    · rw [← hal2]
      exact cap_incr_lt p limit al.entries hnd hpmem hplt
    · rw [← hal2]
      exact keys_map_pres _ (fun q => by split <;> rfl) al.entries

lemma update_keys_nodup (al : Aligner) (added retired : List SockAddr)
    (hnd : (al.entries.map Prod.fst).Nodup) :
    ((al.update added retired).entries.map Prod.fst).Nodup := by
  unfold Aligner.update
  have hsub : (al.entries.filter (fun p => !(retired.contains p.1))).Sublist
      al.entries := List.filter_sublist al.entries
  have hkept : ((al.entries.filter
      (fun p => !(retired.contains p.1))).map Prod.fst).Nodup :=
    hnd.sublist (hsub.map Prod.fst)
  generalize hacc : al.entries.filter (fun p => !(retired.contains p.1)) = acc
    at hkept
  clear hacc hnd hsub
  induction added generalizing acc with
  | nil => exact hkept
  | cons a rest ih =>
    simp only [List.foldl_cons]
    by_cases hc : (acc.map Prod.fst).contains a
    · rw [if_pos hc]
      exact ih acc hkept
    · rw [if_neg hc]
      refine ih _ ?_
      rw [List.map_append, List.nodup_append]
      refine ⟨hkept, by simp, ?_⟩
      intro x hx
      simp only [List.map_cons, List.map_nil, List.mem_singleton]
      intro hxa
      subst hxa
      exact hc (by simpa using hx)

lemma blistInsert_length (b : List (SockAddr × Nat)) (a : SockAddr)
    (d : Nat) : (blistInsert b a d).length ≤ b.length + 1 := by
  unfold blistInsert
  rw [List.length_append]
  have := b.length_filter_le (fun p => !(p.1 = a : Bool))
  simp only [List.length_cons, List.length_nil]
  omega

lemma popExpired_length (now : Nat) :
    ∀ (b : List (SockAddr × Nat)) (q : SockAddr × Nat)
      (b2 : List (SockAddr × Nat)),
    popExpired now b = some (q, b2) → b2.length + 1 = b.length := by
  intro b
  induction b with
  | nil => intro q b2 h; simp [popExpired] at h
  | cons p rest ih =>
    intro q b2 h
    unfold popExpired at h
    by_cases hp : p.2 ≤ now
    · rw [if_pos hp] at h
      simp only [Option.some_inj, Prod.mk.injEq] at h
      rw [← h.2]
      simp
    · rw [if_neg hp] at h
      cases hrec : popExpired now rest with
      | none => rw [hrec] at h; simp at h
      | some pr =>
        rw [hrec] at h
        simp only [Option.some_inj, Prod.mk.injEq] at h
        obtain ⟨h1, h2⟩ := h
        have := ih pr.1 pr.2 (by rw [hrec])
        rw [← h2]
        simp only [List.length_cons]
        omega

lemma drainStep_facts {I : Type} (e : FEv I) (st : St I)
    (hnd : alignerKeysNodup st) :
    nuM (drainStep e st) ≤ nuM st + 2 ∧
    alignerKeysNodup (drainStep e st) ∧
    (drainStep e st).script = st.script ∧
    st.queue.length ≤ (drainStep e st).queue.length ∧
    (drainStep e st).connLimit = st.connLimit := by
  cases e with
  | notReady => exact ⟨by simp only [drainStep]; omega, hnd, rfl, le_refl _, rfl⟩
  | connected c => exact ⟨by simp [drainStep, nuM], hnd, rfl, le_refl _, rfl⟩
  | aborted a => exact ⟨by simp [drainStep, nuM], hnd, rfl, le_refl _, rfl⟩
  | closedDone a => exact ⟨by simp [drainStep, nuM], hnd, rfl, le_refl _, rfl⟩
  | cantConnect a err =>
    have hput := put_props st.aligner a st.connLimit hnd
    have hbl := blistInsert_length st.blist a
      (st.now + genRange st.reconnectMs.1 st.reconnectMs.2 (st.rng.headD 0))
    refine ⟨?_, ?_, rfl, le_refl _, rfl⟩
    · simp only [drainStep, nuM]
      have h1 := hput.1
      omega
    · show ((st.aligner.put a).entries.map Prod.fst).Nodup
      rw [hput.2]
      exact hnd
  | disconnected a err =>
    have hput := put_props st.aligner a st.connLimit hnd
    refine ⟨?_, ?_, rfl, le_refl _, rfl⟩
    · simp only [drainStep, nuM]
      have h1 := hput.1
      omega
    · show ((st.aligner.put a).entries.map Prod.fst).Nodup
      rw [hput.2]
      exact hnd
  | helperStep cid =>
    simp only [drainStep]
    split
    · exact ⟨by omega, hnd, rfl, le_refl _, rfl⟩
    · split
      · exact ⟨by omega, hnd, rfl, le_refl _, rfl⟩
      · split
        · exact ⟨by omega, hnd, rfl, le_refl _, rfl⟩
        · refine ⟨?_, hnd, rfl, by simp, rfl⟩
          simp only [nuM, List.length_append, List.length_cons,
            List.length_nil]
          omega

lemma pollGo_facts {I : Type} :
    ∀ (n : Nat) (st : St I), alignerKeysNodup st →
    nuM (pollGo n st) ≤ nuM st ∧
    alignerKeysNodup (pollGo n st) ∧
    st.queue.length ≤ (pollGo n st).queue.length ∧
    (pollGo n st).connLimit = st.connLimit := by
  intro n
  induction n with
  | zero => exact fun st hnd => ⟨le_refl _, hnd, le_refl _, rfl⟩
  | succ n ih =>
    intro st hnd
    cases hs : st.script with
    | nil =>
      rw [pollGo_nil (n + 1) st hs]
      exact ⟨le_refl _, hnd, le_refl _, rfl⟩
    | cons e rest =>
      by_cases hf : st.futcount = 0
      · rw [pollGo_zero (n + 1) st hf]
        exact ⟨le_refl _, hnd, le_refl _, rfl⟩
      · by_cases hnr : e = FEv.notReady
        · subst hnr
          rw [pollGo_notReady n st rest hs hf]
          refine ⟨?_, hnd, le_refl _, rfl⟩
          simp only [nuM, hs, List.length_cons]
          omega
        · rw [pollGo_cons n st e rest hs hf hnr]
          have hnd2 : alignerKeysNodup ({ st with script := rest } : St I) := hnd
          have hds := drainStep_facts e { st with script := rest } hnd2
          have hih := ih (drainStep e { st with script := rest }) hds.2.1
          refine ⟨?_, hih.2.1, ?_, ?_⟩
          · have h1 := hih.1
            have h2 := hds.1
            have h3 : nuM ({ st with script := rest } : St I) + 2 = nuM st := by
              simp only [nuM, hs, List.length_cons]
              omega
            omega
          · have h1 := hih.2.2.1
            have h2 := hds.2.2.2.1
            have h3 : ({ st with script := rest } : St I).queue.length =
              st.queue.length := rfl
            omega
          · rw [hih.2.2.2, hds.2.2.2.2]

lemma drainStep_pending_mono {I : Type} (e : FEv I) (st : St I) (c : Nat)
    (w : I) (h : ((drainStep e st).store c).pending = some w) :
    (st.store c).pending = some w := by
  cases e with
  | helperStep cid =>
    revert h
    simp only [drainStep]
    split
    · exact id
    · split
      · exact id
      · split
        · exact id
        · by_cases hc : c = cid
          · subst hc
            simp [updStore]
          · simp [updStore, hc]
  | notReady => exact h
  | connected x => exact h
  | aborted x => exact h
  | closedDone x => exact h
  | cantConnect x y => exact h
  | disconnected x y => exact h

lemma drainStep_trace_ext {I : Type} (e : FEv I) (st : St I) :
    ∃ ts, (drainStep e st).trace = st.trace ++ ts := by
  cases e with
  | helperStep cid =>
    simp only [drainStep]
    split
    · exact ⟨[], by simp⟩
    · split
      · exact ⟨[], by simp⟩
      · split
        · exact ⟨[], by simp⟩
        · exact ⟨_, rfl⟩
  | notReady => exact ⟨[], by simp [drainStep]⟩
  | connected x => exact ⟨_, rfl⟩
  | aborted x => exact ⟨_, rfl⟩
  | closedDone x => exact ⟨_, rfl⟩
  | cantConnect x y => exact ⟨_, rfl⟩
  | disconnected x y => exact ⟨_, rfl⟩

lemma drainStep_accept {I : Type} (e : FEv I) (st : St I) (cid : Nat) (w : I)
    (hp : (st.store cid).pending = some w)
    (hcl : ((drainStep e st).store cid).pending = none) :
    Ev.sinkAccepted cid w ∈ (drainStep e st).trace := by
  cases e with
  | helperStep c2 =>
    by_cases hc : c2 = cid
    · subst hc
      revert hcl
      simp only [drainStep]
      split
      · intro hcl
        rw [hp] at hcl
        exact absurd hcl (by simp)
      · rw [hp]
        dsimp only
        split
        · intro hcl
          rw [hp] at hcl
          exact absurd hcl (by simp)
        · intro _
          simp [updStore]
    · revert hcl
      simp only [drainStep]
      split
      · intro hcl
        rw [hp] at hcl
        exact absurd hcl (by simp)
      · split
        · intro hcl
          rw [hp] at hcl
          exact absurd hcl (by simp)
        · split
          · intro hcl
            rw [hp] at hcl
            exact absurd hcl (by simp)
          · intro hcl
            simp only [updStore] at hcl
            rw [if_neg (fun h => hc h.symm)] at hcl
            rw [hp] at hcl
            exact absurd hcl (by simp)
  | notReady =>
    simp only [drainStep] at hcl
    rw [hp] at hcl
    exact absurd hcl (by simp)
  | connected x =>
    simp only [drainStep] at hcl
    rw [hp] at hcl
    exact absurd hcl (by simp)
  | aborted x =>
    simp only [drainStep] at hcl
    rw [hp] at hcl
    exact absurd hcl (by simp)
  | closedDone x =>
    simp only [drainStep] at hcl
    rw [hp] at hcl
    exact absurd hcl (by simp)
  | cantConnect x y =>
    simp only [drainStep] at hcl
    rw [hp] at hcl
    exact absurd hcl (by simp)
  | disconnected x y =>
    simp only [drainStep] at hcl
    rw [hp] at hcl
    exact absurd hcl (by simp)

lemma pollGo_pending_mono {I : Type} :
    ∀ (n : Nat) (st : St I) (c : Nat) (w : I),
    ((pollGo n st).store c).pending = some w →
    (st.store c).pending = some w := by
  intro n
  induction n with
  | zero => exact fun st c w h => h
  | succ n ih =>
    intro st c w h
    cases hs : st.script with
    | nil =>
      rw [pollGo_nil (n + 1) st hs] at h
      exact h
    | cons e rest =>
      by_cases hf : st.futcount = 0
      · rw [pollGo_zero (n + 1) st hf] at h
        exact h
      · by_cases hnr : e = FEv.notReady
        · subst hnr
          rw [pollGo_notReady n st rest hs hf] at h
          exact h
        · rw [pollGo_cons n st e rest hs hf hnr] at h
          exact drainStep_pending_mono e { st with script := rest } c w
            (ih _ c w h)

lemma pollGo_trace_ext {I : Type} :
    ∀ (n : Nat) (st : St I), ∃ ts, (pollGo n st).trace = st.trace ++ ts := by
  intro n
  induction n with
  | zero => exact fun st => ⟨[], by simp [pollGo]⟩
  | succ n ih =>
    intro st
    cases hs : st.script with
    | nil =>
      rw [pollGo_nil (n + 1) st hs]
      exact ⟨[], by simp⟩
    | cons e rest =>
      by_cases hf : st.futcount = 0
      · rw [pollGo_zero (n + 1) st hf]
        exact ⟨[], by simp⟩
      · by_cases hnr : e = FEv.notReady
        · subst hnr
          rw [pollGo_notReady n st rest hs hf]
          exact ⟨[], by simp⟩
        · rw [pollGo_cons n st e rest hs hf hnr]
          obtain ⟨t1, ht1⟩ := drainStep_trace_ext e { st with script := rest }
          obtain ⟨t2, ht2⟩ := ih (drainStep e { st with script := rest })
          refine ⟨t1 ++ t2, ?_⟩
          rw [ht2, ht1]
          show _ = st.trace ++ (t1 ++ t2)
          rw [List.append_assoc]

lemma pollGo_accept {I : Type} :
    ∀ (n : Nat) (st : St I) (cid : Nat) (w : I),
    (st.store cid).pending = some w →
    ((pollGo n st).store cid).pending = none →
    Ev.sinkAccepted cid w ∈ (pollGo n st).trace := by
  intro n
  induction n with
  | zero =>
    intro st cid w hp hcl
    simp only [pollGo] at hcl
    rw [hp] at hcl
    exact absurd hcl (by simp)
  | succ n ih =>
    intro st cid w hp hcl
    cases hs : st.script with
    | nil =>
      rw [pollGo_nil (n + 1) st hs] at hcl
      rw [hp] at hcl
      exact absurd hcl (by simp)
    | cons e rest =>
      by_cases hf : st.futcount = 0
      · rw [pollGo_zero (n + 1) st hf] at hcl
        rw [hp] at hcl
        exact absurd hcl (by simp)
      · by_cases hnr : e = FEv.notReady
        · subst hnr
          rw [pollGo_notReady n st rest hs hf] at hcl
          rw [pollGo_notReady n st rest hs hf]
          rw [hp] at hcl
          exact absurd hcl (by simp)
        · rw [pollGo_cons n st e rest hs hf hnr] at hcl ⊢
          cases hX : ((drainStep e ({ st with script := rest } : St I)).store
              cid).pending with
          | some w2 =>
            have hw2 : w2 = w := by
              have := drainStep_pending_mono e { st with script := rest }
                cid w2 hX
              rw [hp] at this
              exact (Option.some_inj.mp this).symm
            subst hw2
            exact ih _ cid w2 hX hcl
          | none =>
            have hacc := drainStep_accept e { st with script := rest } cid w
              hp hX
            obtain ⟨ts, hts⟩ := pollGo_trace_ext n
              (drainStep e ({ st with script := rest } : St I))
            rw [hts]
            exact List.mem_append_left ts hacc

lemma doConnect_some_props {I : Type} (st st1 : St I) (a : SockAddr)
    (h : doConnect st = (some a, st1)) (hnd : alignerKeysNodup st) :
    st1.script = st.script ∧ st1.queue = st.queue ∧ st1.blist = st.blist ∧
    st1.connLimit = st.connLimit ∧
    st1.aligner.capacity st.connLimit + 1 ≤
      st.aligner.capacity st.connLimit ∧
    alignerKeysNodup st1 ∧
    (∀ c w, (st1.store c).pending = some w → (st.store c).pending = some w) ∧
    (∃ ts, st1.trace = st.trace ++ ts) := by
  unfold doConnect at h
  cases hget : st.aligner.get st.connLimit (fun x => isFailing st.blist x) with
  | mk o al2 =>
    rw [hget] at h
    cases o with
    | none => simp at h
    | some addr =>
      simp only [Prod.mk.injEq, Option.some_inj] at h
      obtain ⟨ha, hst1⟩ := h
      have hgp := get_some_props st.aligner st.connLimit _ addr al2 hnd hget
      subst hst1
      refine ⟨rfl, rfl, rfl, rfl, hgp.1, ?_, ?_, ⟨_, rfl⟩⟩
      · show (al2.entries.map Prod.fst).Nodup
        rw [hgp.2]
        exact hnd
      · intro c w hw
        by_cases hc : c = st.nextId
        · subst hc
          simp [updStore] at hw
        · simpa [updStore, hc] using hw

lemma doConnect_none_eq {I : Type} (st st1 : St I)
    (h : doConnect st = (none, st1)) : st1 = st := by
  unfold doConnect at h
  cases hget : st.aligner.get st.connLimit (fun x => isFailing st.blist x) with
  | mk o al2 =>
    rw [hget] at h
    cases o with
    | some addr => simp at h
    | none =>
      simp only [Prod.mk.injEq] at h
      exact h.2.symm

lemma blistPollStep_true_props {I : Type} (st stb : St I)
    (h : blistPollStep st = (true, stb)) :
    stb.blist.length + 1 = st.blist.length ∧ stb.script = st.script ∧
    stb.queue = st.queue ∧ stb.aligner = st.aligner ∧
    stb.connLimit = st.connLimit ∧ stb.store = st.store ∧
    stb.trace = st.trace := by
  unfold blistPollStep at h
  cases hpe : popExpired st.now st.blist with
  | none => rw [hpe] at h; simp at h
  | some pr =>
    rw [hpe] at h
    simp only [Prod.mk.injEq] at h
    obtain ⟨_, hstb⟩ := h
    subst hstb
    exact ⟨popExpired_length st.now st.blist pr.1 pr.2 (by rw [hpe]),
      rfl, rfl, rfl, rfl, rfl, rfl⟩

lemma blistPollStep_false_eq {I : Type} (st st2 : St I)
    (h : blistPollStep st = (false, st2)) : st2 = st := by
  unfold blistPollStep at h
  cases hpe : popExpired st.now st.blist with
  | none =>
    rw [hpe] at h
    simp only [Prod.mk.injEq] at h
    exact h.2.symm
  | some pr => rw [hpe] at h; simp at h

lemma blistDrain_props {I : Type} :
    ∀ (n : Nat) (st : St I),
    (blistDrain n st).blist.length ≤ st.blist.length ∧
    (blistDrain n st).script = st.script ∧
    (blistDrain n st).queue = st.queue ∧
    (blistDrain n st).aligner = st.aligner ∧
    (blistDrain n st).connLimit = st.connLimit ∧
    (blistDrain n st).store = st.store := by
  intro n
  induction n with
  | zero => exact fun st => ⟨le_refl _, rfl, rfl, rfl, rfl, rfl⟩
  | succ n ih =>
    intro st
    simp only [blistDrain]
    cases hb : blistPollStep st with
    | mk r stb =>
      cases r with
      | true =>
        dsimp only
        have hp := blistPollStep_true_props st stb hb
        have hi := ih { stb with trace := stb.trace ++ [Ev.blacklistRemove] }
        refine ⟨?_, ?_, ?_, ?_, ?_, ?_⟩
        · have h1 := hi.1
          have h2 := hp.1
          simp only at h1
          omega
        · rw [hi.2.1]
          exact hp.2.1
        · rw [hi.2.2.1]
          exact hp.2.2.1
        · rw [hi.2.2.2.1]
          exact hp.2.2.2.1
        · rw [hi.2.2.2.2.1]
          exact hp.2.2.2.2.1
        · rw [hi.2.2.2.2.2]
          exact hp.2.2.2.2.2.1
      | false =>
        dsimp only
        have := blistPollStep_false_eq st stb hb
        subst this
        exact ⟨le_refl _, rfl, rfl, rfl, rfl, rfl⟩

lemma blistDrainAll_lt {I : Type} (st stb : St I)
    (h : blistPollStep st = (true, stb)) :
    (blistDrainAll st).blist.length + 1 ≤ st.blist.length := by
  have hp := blistPollStep_true_props st stb h
  unfold blistDrainAll
  cases hn : st.blist.length with
  | zero => omega
  | succ n =>
    simp only [blistDrain]
    rw [h]
    dsimp only
    have := (blistDrain_props n
      ({ stb with trace := stb.trace ++ [Ev.blacklistRemove] } : St I)).1
    simp only at this
    omega

lemma pollFutures_facts {I : Type} (st : St I) (hnd : alignerKeysNodup st) :
    nuM (pollFutures st) ≤ nuM st ∧ alignerKeysNodup (pollFutures st) ∧
    st.queue.length ≤ (pollFutures st).queue.length ∧
    (pollFutures st).connLimit = st.connLimit :=
  pollGo_facts st.script.length st hnd

lemma pollFutures_pending_mono {I : Type} (st : St I) (c : Nat) (w : I)
    (h : ((pollFutures st).store c).pending = some w) :
    (st.store c).pending = some w :=
  pollGo_pending_mono st.script.length st c w h

lemma pollFutures_accept {I : Type} (st : St I) (cid : Nat) (w : I)
    (hp : (st.store cid).pending = some w)
    (hcl : ((pollFutures st).store cid).pending = none) :
    Ev.sinkAccepted cid w ∈ (pollFutures st).trace :=
  pollGo_accept st.script.length st cid w hp hcl

lemma nuM_eq_mu {I : Type} (st : St I) :
    nuM st = mu st + st.queue.length := by
  simp only [nuM, mu]
  omega

lemma popStep_pending {I : Type} (cid : Nat) (restq : List Nat) (st : St I)
    (c : Nat) :
    ((popStep cid restq st).store c).pending = (st.store c).pending := by
  by_cases h : c = cid <;> simp [popStep, updStore, h]

lemma requestInto_pending_ne {I : Type} (cid : Nat) (v : I) (st : St I)
    (c : Nat) (hc : c ≠ cid) :
    ((requestInto cid v st).store c).pending = (st.store c).pending := by
  simp [requestInto, updStore, hc]

lemma requestInto_pending_self {I : Type} (cid : Nat) (v : I) (st : St I) :
    ((requestInto cid v st).store cid).pending = some v := by
  simp [requestInto, updStore]

lemma startClosing_pending {I : Type} (st : St I) (c : Nat) :
    ((startClosing st).store c).pending = (st.store c).pending := by
  unfold startClosing
  split
  · rfl
  · dsimp only
    split <;> rfl

lemma newAddr_pending {I : Type} (st : St I) (c : Nat) :
    (((newAddr st).2).store c).pending = (st.store c).pending := by
  unfold newAddr
  dsimp only
  split
  · rw [startClosing_pending]
  · rfl

lemma newAddr_aligner {I : Type} (st : St I) :
    ((newAddr st).2).aligner = st.aligner := by
  unfold newAddr
  dsimp only
  split
  · rw [(startClosing_frame _).2.1]
  · rfl

lemma check_pendingFree {I : Type} (st : St I) (h : pendingFree st) :
    pendingFree (checkForAddressUpdates st) := by
  intro c
  unfold checkForAddressUpdates
  cases hna : newAddr st with
  | mk o st1 =>
    have hpend : ∀ x, (st1.store x).pending = (st.store x).pending := by
      intro x
      have := newAddr_pending st x
      rw [hna] at this
      exact this
    cases o with
    | none =>
      dsimp only
      rw [hpend c]
      exact h c
    | some na =>
      dsimp only
      by_cases heq : na = st1.curAddress
      · rw [if_pos heq]
        rw [hpend c]
        exact h c
      · rw [if_neg heq]
        show (((closeRetired
          (compareAddresses st1.curAddress.prim na.prim).1 st1).store c)).pending = none
        simp only [closeRetired]
        split
        · show ({ st1.store c with closed := true }).pending = none
          show (st1.store c).pending = none
          rw [hpend c]
          exact h c
        · rw [hpend c]
          exact h c

lemma check_keys {I : Type} (st : St I) (h : alignerKeysNodup st) :
    alignerKeysNodup (checkForAddressUpdates st) := by
  unfold checkForAddressUpdates
  cases hna : newAddr st with
  | mk o st1 =>
    have hal : st1.aligner = st.aligner := by
      have := newAddr_aligner st
      rw [hna] at this
      exact this
    have h1 : alignerKeysNodup st1 := by
      show (st1.aligner.entries.map Prod.fst).Nodup
      rw [hal]
      exact h
    cases o with
    | none => exact h1
    | some na =>
      dsimp only
      by_cases heq : na = st1.curAddress
      · rw [if_pos heq]
        exact h1
      · rw [if_neg heq]
        show ((((closeRetired (compareAddresses st1.curAddress.prim na.prim).1
          st1).aligner.update (compareAddresses st1.curAddress.prim na.prim).2
          (compareAddresses st1.curAddress.prim na.prim).1)).entries.map
            Prod.fst).Nodup
        exact update_keys_nodup _ _ _ h1

lemma blistDrainAll_branch {I : Type} (st1 stb : St I)
    (hb : blistPollStep st1 = (true, stb)) (hnd : alignerKeysNodup st1)
    (hp : pendingFree st1) :
    pendingFree (blistDrainAll
      ({ stb with trace := stb.trace ++ [Ev.blacklistRemove] } : St I)) ∧
    alignerKeysNodup (blistDrainAll
      ({ stb with trace := stb.trace ++ [Ev.blacklistRemove] } : St I)) ∧
    mu (blistDrainAll
      ({ stb with trace := stb.trace ++ [Ev.blacklistRemove] } : St I)) + 1 ≤
      mu st1 := by
  obtain ⟨hb1, hb2, hb3, hb4, hb5, hb6, hb7⟩ :=
    blistPollStep_true_props st1 stb hb
  have BD := blistDrain_props
    (({ stb with trace := stb.trace ++ [Ev.blacklistRemove] } : St I).blist.length)
    ({ stb with trace := stb.trace ++ [Ev.blacklistRemove] } : St I)
  have hda : (blistDrainAll
      ({ stb with trace := stb.trace ++ [Ev.blacklistRemove] } : St I)) =
      blistDrain
        (({ stb with trace := stb.trace ++ [Ev.blacklistRemove] } : St I).blist.length)
        ({ stb with trace := stb.trace ++ [Ev.blacklistRemove] } : St I) := rfl
  have f1 : (blistDrainAll
      ({ stb with trace := stb.trace ++ [Ev.blacklistRemove] } : St I)).script =
      stb.script := by rw [hda]; exact BD.2.1
  have f2 : (blistDrainAll
      ({ stb with trace := stb.trace ++ [Ev.blacklistRemove] } : St I)).queue =
      stb.queue := by rw [hda]; exact BD.2.2.1
  have f3 : (blistDrainAll
      ({ stb with trace := stb.trace ++ [Ev.blacklistRemove] } : St I)).aligner =
      stb.aligner := by rw [hda]; exact BD.2.2.2.1
  have f4 : (blistDrainAll
      ({ stb with trace := stb.trace ++ [Ev.blacklistRemove] } : St I)).connLimit =
      stb.connLimit := by rw [hda]; exact BD.2.2.2.2.1
  have f5 : (blistDrainAll
      ({ stb with trace := stb.trace ++ [Ev.blacklistRemove] } : St I)).store =
      stb.store := by rw [hda]; exact BD.2.2.2.2.2
  have f6 : (blistDrainAll
      ({ stb with trace := stb.trace ++ [Ev.blacklistRemove] } : St I)).blist.length ≤
      stb.blist.length := by rw [hda]; exact BD.1
  refine ⟨?_, ?_, ?_⟩
  · intro c
    rw [f5, hb6]
    exact hp c
  · show ((blistDrainAll
      ({ stb with trace := stb.trace ++ [Ev.blacklistRemove] } : St I)).aligner.entries.map
        Prod.fst).Nodup
    rw [f3, hb4]
    exact hnd
  · simp only [mu]
    rw [f1, f2, f3, f4]
    set xb := (blistDrainAll
      ({ stb with trace := stb.trace ++ [Ev.blacklistRemove] } : St I)).blist.length
      with hXb
    rw [hb2, hb3, hb4, hb5]
    omega

lemma pollFutures_pendingFree {I : Type} (st : St I) (h : pendingFree st) :
    pendingFree (pollFutures st) := by
  intro c
  cases hcp : ((pollFutures st).store c).pending with
  | none => rfl
  | some w =>
    exfalso
    have hb := pollFutures_pending_mono st c w hcp
    rw [h c] at hb
    exact Option.noConfusion hb

lemma liveStep_some {I : Type} (cid : Nat) (q2 : List Nat) (v : I)
    (fuel : Nat) (st : St I) (r : I)
    (h : ((pollFutures (requestInto cid v (popStep cid q2 st))).store
      cid).pending = some r) :
    liveStep cid q2 v fuel st =
      dispatchPhase fuel r (clearPending cid
        (pollFutures (requestInto cid v (popStep cid q2 st)))) := by
  unfold liveStep
  dsimp only
  rw [h]

lemma liveStep_none {I : Type} (cid : Nat) (q2 : List Nat) (v : I)
    (fuel : Nat) (st : St I)
    (h : ((pollFutures (requestInto cid v (popStep cid q2 st))).store
      cid).pending = none) :
    liveStep cid q2 v fuel st =
      (SendRes.ready, clearPending cid
        (pollFutures (requestInto cid v (popStep cid q2 st)))) := by
  unfold liveStep
  dsimp only
  rw [h]

lemma phases_no_discard {I : Type} :
    ∀ (fuel : Nat),
    (∀ (v : I) (st : St I), pendingFree st → alignerKeysNodup st →
      2 * mu st + 2 ≤ fuel → goodRes v (dispatchPhase fuel v st)) ∧
    (∀ (v : I) (st : St I), pendingFree st → alignerKeysNodup st →
      2 * mu st + 1 ≤ fuel → goodRes v (connectPhase fuel v st)) := by
  intro fuel
  induction fuel with
  | zero =>
    exact ⟨fun v st _ _ hf => absurd hf (by omega),
           fun v st _ _ hf => absurd hf (by omega)⟩
  | succ n ih =>
    constructor
    · intro v st hp hnd hf
      cases hq : st.queue with
      | cons cid restq =>
        have hmuP : mu (popStep cid restq st) + 1 = mu st := by
          have e1 : (popStep cid restq st).script = st.script := rfl
          have e2 : (popStep cid restq st).queue = restq := rfl
          have e3 : (popStep cid restq st).aligner = st.aligner := rfl
          have e4 : (popStep cid restq st).connLimit = st.connLimit := rfl
          have e5 : (popStep cid restq st).blist = st.blist := rfl
          simp only [mu, e1, e2, e3, e4, e5, hq, List.length_cons]
          omega
        by_cases hcl : (st.store cid).closed = true
        · rw [dispatch_cons_closed n v st cid restq hq hcl]
          refine ih.1 v (popStep cid restq st) ?_ hnd ?_
          · intro c
            rw [popStep_pending]
            exact hp c
          · omega
        · have hcl2 : (st.store cid).closed = false := by
            revert hcl
            cases (st.store cid).closed <;> simp
          rw [dispatch_cons_live n v st cid restq hq hcl2]
          have hndR : alignerKeysNodup
              (requestInto cid v (popStep cid restq st)) := hnd
          have SF := pollFutures_facts
            (requestInto cid v (popStep cid restq st)) hndR
          have hmuR : mu (requestInto cid v (popStep cid restq st)) =
              mu (popStep cid restq st) := rfl
          have hnuS := nuM_eq_mu
            (pollFutures (requestInto cid v (popStep cid restq st)))
          have hnuR := nuM_eq_mu (requestInto cid v (popStep cid restq st))
          cases hpend : ((pollFutures (requestInto cid v
              (popStep cid restq st))).store cid).pending with
          | some r =>
            have hrv : r = v := by
              have hb := pollFutures_pending_mono
                (requestInto cid v (popStep cid restq st)) cid r hpend
              rw [requestInto_pending_self] at hb
              exact (Option.some_inj.mp hb).symm
            subst hrv
            rw [liveStep_some cid restq r n st r hpend]
            refine ih.1 r (clearPending cid (pollFutures (requestInto cid r
              (popStep cid restq st)))) ?_ ?_ ?_
            · intro c
              by_cases hc : c = cid
              · subst hc
                simp [clearPending, updStore]
              · have hcl3 : ((clearPending cid (pollFutures (requestInto cid r
                    (popStep cid restq st)))).store c).pending =
                    ((pollFutures (requestInto cid r
                      (popStep cid restq st))).store c).pending := by
                  simp [clearPending, updStore, hc]
                rw [hcl3]
                cases hcp : ((pollFutures (requestInto cid r
                    (popStep cid restq st))).store c).pending with
                | none => rfl
                | some w =>
                  exfalso
                  have hb := pollFutures_pending_mono
                    (requestInto cid r (popStep cid restq st)) c w hcp
                  rw [requestInto_pending_ne cid r (popStep cid restq st) c hc,
                    popStep_pending] at hb
                  rw [hp c] at hb
                  exact Option.noConfusion hb
            · exact SF.2.1
            · have hmucp : mu (clearPending cid (pollFutures (requestInto cid r
                  (popStep cid restq st)))) =
                  mu (pollFutures (requestInto cid r
                    (popStep cid restq st))) := rfl
              have h1 := SF.1
              have h2 := SF.2.2.1
              omega
          | none =>
            rw [liveStep_none cid restq v n st hpend]
            left
            refine ⟨rfl, cid, ?_⟩
            exact pollFutures_accept (requestInto cid v (popStep cid restq st))
              cid v (requestInto_pending_self cid v (popStep cid restq st))
              hpend
      | nil =>
        have SF := pollFutures_facts st hnd
        have hq0 : st.queue.length = 0 := by rw [hq]; rfl
        have hnuS := nuM_eq_mu (pollFutures st)
        have hnuSt := nuM_eq_mu st
        cases hq2 : (pollFutures st).queue with
        | cons c t =>
          rw [dispatch_nil_ready n v st c t hq hq2]
          refine ih.1 v (pollFutures st) (pollFutures_pendingFree st hp)
            SF.2.1 ?_
          have hlen : (pollFutures st).queue.length = t.length + 1 := by
            rw [hq2]
            rfl
          have h1 := SF.1
          omega
        | nil =>
          rw [dispatch_nil_empty n v st hq hq2]
          refine ih.2 v (pollFutures st) (pollFutures_pendingFree st hp)
            SF.2.1 ?_
          have h1 := SF.1
          omega
    · intro v st hp hnd hf
      cases hdc : doConnect st with
      | mk o st1 =>
        cases o with
        | some addr =>
          obtain ⟨hsc, hqe, hbe, hcle, hcap, hknd, hpm, htr⟩ :=
            doConnect_some_props st st1 addr hdc hnd
          have hp1 : pendingFree st1 := by
            intro c
            cases hcp : (st1.store c).pending with
            | none => rfl
            | some w =>
              exfalso
              have hb := hpm c w hcp
              rw [hp c] at hb
              exact Option.noConfusion hb
          have hmu1 : mu st1 + 1 ≤ mu st := by
            simp only [mu]
            rw [hsc, hqe, hbe, hcle]
            omega
          have SF := pollFutures_facts st1 hknd
          have hnuS := nuM_eq_mu (pollFutures st1)
          have hnu1 := nuM_eq_mu st1
          cases hq2 : (pollFutures st1).queue with
          | cons c t =>
            rw [connect_some_ready n v st st1 addr c t hdc hq2]
            refine ih.1 v (pollFutures st1) (pollFutures_pendingFree st1 hp1)
              SF.2.1 ?_
            have h1 := SF.1
            have h2 := SF.2.2.1
            omega
          | nil =>
            by_cases hbl : isFailing (pollFutures st1).blist addr = true
            · rw [connect_some_failing n v st st1 addr hdc hq2 hbl]
              refine ih.2 v (pollFutures st1) (pollFutures_pendingFree st1 hp1)
                SF.2.1 ?_
              have h1 := SF.1
              have h2 := SF.2.2.1
              omega
            · have hbl2 : isFailing (pollFutures st1).blist addr = false := by
                revert hbl
                cases isFailing (pollFutures st1).blist addr <;> simp
              rw [connect_some_wait n v st st1 addr hdc hq2 hbl2]
              right
              rfl
        | none =>
          have hst1 : st1 = st := doConnect_none_eq st st1 hdc
          subst hst1
          cases hb : blistPollStep st1 with
          | mk r stb =>
            cases r with
            | true =>
              rw [connect_none_expired n v st1 stb (by rw [hdc]) hb]
              have hbr := blistDrainAll_branch st1 stb hb hnd hp
              refine ih.2 v _ hbr.1 hbr.2.1 ?_
              have := hbr.2.2
              omega
            | false =>
              rw [connect_none_block n v st1 stb (by rw [hdc]) hb]
              right
              rfl

/-- C3: no invocation of `start_send` in the open (non-closing) state
silently discards its item: with enough fuel for the source's loops (the
measure `mu` bounds their iterations), the call either returns `Ready`
with the item accepted by some connection's sink, or returns `NotReady`
carrying exactly the offered item back to the caller — including on the
path where popped controllers are closed and dispatch restarts with the
same item still held. -/
theorem c3_no_discard {I : Type} (fuel : Nat) (v : I) (st : St I)
    (hc : st.closing = false) (hp : pendingFree st)
    (hnd : alignerKeysNodup st)
    (hf : 2 * mu (checkForAddressUpdates st) + 2 ≤ fuel) :
    ((startSend fuel v st).1 = SendRes.ready ∧
      ∃ c, Ev.sinkAccepted c v ∈ (startSend fuel v st).2.trace) ∨
    (startSend fuel v st).1 = SendRes.notReady v := by
  have h1 : startSend fuel v st =
      dispatchPhase fuel v (checkForAddressUpdates st) := by
    simp [startSend, hc]
  rw [h1]
  exact (phases_no_discard fuel).1 v (checkForAddressUpdates st)
    (check_pendingFree st hp) (check_keys st hnd) hf

/-- Witness for C3 at a concrete open state with one live queued
controller. -/
theorem c3_no_discard_witness :
    ((startSend 50 42 wLive).1 = SendRes.ready ∧
      ∃ c, Ev.sinkAccepted c 42 ∈ (startSend 50 42 wLive).2.trace) ∨
    (startSend 50 42 wLive).1 = SendRes.notReady 42 :=
  c3_no_discard 50 42 wLive rfl
    (by
      intro c
      by_cases h : c = 0 <;>
        simp [wLive, wBase, LazyUniform.construct, h])
    (by
      show ((wLive.aligner.entries.map Prod.fst)).Nodup
      decide)
    (by decide)

end TkPool
